import Mathlib

set_option maxRecDepth 100000

/-!
A shallow embedding of the libcgifh paletted-image drawing helper
(`src/cgifh.c` together with the glyph data from `include/cgifh.h`), and
theorems checking the library's natural-language specification against the
code.  C `int` values are modelled as `Int`, byte (`uint8_t`) values as `Nat`
with explicit `% 256` at the points where C performs a narrowing cast, and
`size_t` values as `Nat`.  Buffers are total functions from offsets to byte
values, so that uninitialised C memory is simply an arbitrary function.
-/

/-- `INT_MAX` of the platform `int` used for image dimensions (32-bit). -/
def INT_MAX : Nat := 2147483647

/-- `CGIFH_PALETTE_MAX`: maximum number of palette entries. -/
def CGIFH_PALETTE_MAX : Nat := 256

/-- The `cgifh_t` image structure.  `palette` is the byte array
`uint8_t palette[3 * 256]` as a total function from byte offsets to byte
values; `palette_count`, `width`, `height` are the corresponding fields;
`size` holds the `width * height` product as the `size_t` value that the
source computes (the C field is `int`; the conversion is only
implementation-defined above `INT_MAX`, and this development only asserts
the field's value when the product is at most `INT_MAX`, where the two
agree); `data` is the flexible pixel array `uint8_t data[]` as a total
function from flat `y * width + x` offsets. -/
structure Img where
  palette : Nat → Nat
  palette_count : Nat
  width : Int
  height : Int
  size : Nat
  data : Int → Nat

/-- `cgifh_palette_add` from `src/cgifh.c`: fails when the palette is full,
otherwise stores the RGB triple at byte offsets `3 * palette_count + {0,1,2}`,
reports the pre-increment `palette_count` through `idx_out`, and increments
`palette_count`.  The result is the C `bool` return value, the updated image,
and the value written through `idx_out` (`none` when the call returns `false`
and leaves `*idx_out` untouched). -/
def cgifh_palette_add (img : Img) (r g b : Nat) : Bool × Img × Option Nat :=
  if img.palette_count ≥ CGIFH_PALETTE_MAX then
    (false, img, none)
  else
    let c := img.palette_count
    let pal := fun i =>
      if i = 3 * c then r
      else if i = 3 * c + 1 then g
      else if i = 3 * c + 2 then b
      else img.palette i
    (true, ⟨pal, c + 1, img.width, img.height, img.size, img.data⟩, some c)

/-- One interpolated channel of `cgifh_palette_add_blend`: the C expression
`(uint8_t)((c0 <= c1) ? c0 + (c1 - c0) * pos / 255 : c0 - (c0 - c1) * pos / 255)`.
The operands are promoted `uint8_t` values, so every intermediate value is a
nonnegative `int` and `/` is truncating division; the final `% 256` is the
`(uint8_t)` cast. -/
def blend_channel (c0 c1 pos : Nat) : Nat :=
  (if c0 ≤ c1 then c0 + (c1 - c0) * pos / 255 else c0 - (c0 - c1) * pos / 255) % 256

/-- `cgifh_palette_add_blend` from `src/cgifh.c`: reads the two source colours
at byte offsets `3 * idx0` and `3 * idx1`, interpolates each channel, and
delegates the append to `cgifh_palette_add`. -/
def cgifh_palette_add_blend (img : Img) (idx0 idx1 pos : Nat) :
    Bool × Img × Option Nat :=
  let r := blend_channel (img.palette (3 * idx0)) (img.palette (3 * idx1)) pos
  let g := blend_channel (img.palette (3 * idx0 + 1)) (img.palette (3 * idx1 + 1)) pos
  let b := blend_channel (img.palette (3 * idx0 + 2)) (img.palette (3 * idx1 + 2)) pos
  cgifh_palette_add img r g b

/-- The spec's per-channel blend formula, written exactly as the specification
states it (no narrowing cast): `c0 + (c1-c0)*pos/255` when `c0 <= c1`, else
`c0 - (c0-c1)*pos/255`, with truncating division.  Used to compare the code's
`blend_channel` against the specification. -/
def spec_blend_channel (c0 c1 pos : Nat) : Nat :=
  if c0 ≤ c1 then c0 + (c1 - c0) * pos / 255 else c0 - (c0 - c1) * pos / 255

/-- `cgifh_create` from `src/cgifh.c`.  `allocOk` models whether `malloc`
succeeds; `pal0` and `mem` are the arbitrary contents of the freshly
allocated (uninitialised) palette array and pixel buffer. -/
def cgifh_create (allocOk : Bool) (pal0 : Nat → Nat) (mem : Int → Nat)
    (width height : Nat) : Option Img :=
  if width = 0 ∨ height = 0 ∨ width > INT_MAX ∨ height > INT_MAX then none
  else if allocOk = false then none
  else some ⟨pal0, 0, (width : Int), (height : Int), width * height, mem⟩

/-- `n` successive `cgifh_palette_add` calls with colours
`cols 0, cols 1, …`, collecting the reported indices in call order. -/
def palette_addN (img : Img) (cols : Nat → Nat × Nat × Nat) :
    Nat → Img × List (Option Nat)
  | 0 => (img, [])
  | n + 1 =>
    let r := palette_addN img cols n
    let s := cgifh_palette_add r.1 (cols n).1 (cols n).2.1 (cols n).2.2
    (s.2.1, r.2 ++ [s.2.2])

/-- A sample image (zeroed palette and pixel buffer) used to instantiate
theorems at concrete inputs. -/
def mkImg (w h : Int) : Img := ⟨fun _ => 0, 0, w, h, (w * h).toNat, fun _ => 0⟩

/-- The pixel-setter choice made by `cgifh_get_px_fn`: the unchecked fast
setter `cgifh_pixel`, or the bounds-checked `cgifh_pixel_clipped`.  The C
function returns a function pointer or `NULL`; the embedding returns
`Option PxFn`, with `none` for `NULL`. -/
inductive PxFn where
  | fast : PxFn
  | clipped : PxFn
deriving DecidableEq

/-- `cgifh_pixel`: unchecked pixel write at flat offset `y * width + x`. -/
def cgifh_pixel (img : Img) (colour : Nat) (x y : Int) : Img :=
  ⟨img.palette, img.palette_count, img.width, img.height, img.size,
   fun o => if o = y * img.width + x then colour else img.data o⟩

/-- `cgifh_pixel_clipped`: pixel write guarded by the bounds test
`x >= 0 && x < width && y >= 0 && y < height`. -/
def cgifh_pixel_clipped (img : Img) (colour : Nat) (x y : Int) : Img :=
  if 0 ≤ x ∧ x < img.width ∧ 0 ≤ y ∧ y < img.height then
    cgifh_pixel img colour x y
  else img

/-- Invoke the chosen pixel setter. -/
def px_apply : PxFn → Img → Nat → Int → Int → Img
  | PxFn.fast, img, colour, x, y => cgifh_pixel img colour x y
  | PxFn.clipped, img, colour, x, y => cgifh_pixel_clipped img colour x y

/-- `cgifh_get_px_fn` from `src/cgifh.c`: sorts each coordinate pair, then
classifies the rectangle against `[0, width) x [0, height)`: fully inside
gives the fast setter, fully outside gives `NULL`, otherwise the clipped
setter. -/
def cgifh_get_px_fn (img : Img) (test_x0 test_y0 test_x1 test_y1 : Int) :
    Option PxFn :=
  let clip_x1 := img.width
  let clip_y1 := img.height
  let sx0 := if test_x0 > test_x1 then test_x1 else test_x0
  let sx1 := if test_x0 > test_x1 then test_x0 else test_x1
  let sy0 := if test_y0 > test_y1 then test_y1 else test_y0
  let sy1 := if test_y0 > test_y1 then test_y0 else test_y1
  if sx0 ≥ 0 ∧ sx1 < clip_x1 ∧ sy0 ≥ 0 ∧ sy1 < clip_y1 then some PxFn.fast
  else if sx1 < 0 ∨ sx0 ≥ clip_x1 ∨ sy1 < 0 ∨ sy0 ≥ clip_y1 then none
  else some PxFn.clipped

/-- Membership in the (integer-point) bounding box spanned by the two
corners `(x0, y0)` and `(x1, y1)`, in either order. -/
def inBox (x0 y0 x1 y1 : Int) (p : Int × Int) : Prop :=
  min x0 x1 ≤ p.1 ∧ p.1 ≤ max x0 x1 ∧ min y0 y1 ≤ p.2 ∧ p.2 ≤ max y0 y1

/-- Membership in the image rectangle `[0, width) x [0, height)`. -/
def inRect (img : Img) (p : Int × Int) : Prop :=
  0 ≤ p.1 ∧ p.1 < img.width ∧ 0 ≤ p.2 ∧ p.2 < img.height

/-- The ascending integers `a, a+1, …, b` (empty when `b < a`): the values
taken by a C loop `for (v = a; v <= b; v++)`. -/
def int_steps (a b : Int) : List Int :=
  (List.range (b - a + 1).toNat).map (fun i => a + (i : Int))

/-- `cgifh_v_line` from `src/cgifh.c`. -/
def cgifh_v_line (img : Img) (colour : Nat) (y0 y1 x : Int) : Img :=
  match cgifh_get_px_fn img x y0 x y1 with
  | none => img
  | some pxf =>
    if y0 ≤ y1 then
      (int_steps y0 y1).foldl (fun im row => px_apply pxf im colour x row) img
    else
      (int_steps y1 y0).foldl (fun im row => px_apply pxf im colour x row) img

/-- `cgifh_h_line` from `src/cgifh.c`. -/
def cgifh_h_line (img : Img) (colour : Nat) (x0 x1 y : Int) : Img :=
  match cgifh_get_px_fn img x0 y x1 y with
  | none => img
  | some pxf =>
    if x0 ≤ x1 then
      (int_steps x0 x1).foldl (fun im col => px_apply pxf im colour col y) img
    else
      (int_steps x1 x0).foldl (fun im col => px_apply pxf im colour col y) img

/-- `cgifh_rect_fill` from `src/cgifh.c`: classifies the box with corners
`(x, y)` and `(x + w, y + h)`, then iterates rows `y ≤ row < y + h` and
columns `x ≤ col < x + w`. -/
def cgifh_rect_fill (img : Img) (colour : Nat) (x y w h : Int) : Img :=
  match cgifh_get_px_fn img x y (x + w) (y + h) with
  | none => img
  | some pxf =>
    ((List.range h.toNat).map (fun i => y + (i : Int))).foldl
      (fun im row =>
        ((List.range w.toNat).map (fun j => x + (j : Int))).foldl
          (fun im2 col => px_apply pxf im2 colour col row) im)
      img

/-- The `while (true)` loop of `cgifh_line`, with explicit fuel.  Besides the
image it returns the list of pixel coordinates passed to the setter, in call
order (the painted trace).  `x1 y1` are the loop-invariant endpoint, `sx sy
dx dy` the step directions and deltas, and `x y e` the mutable state. -/
def cgifh_line_loop (fuel : Nat) (pxf : PxFn) (colour : Nat)
    (x1 y1 sx sy dx dy : Int) (img : Img) (x y e : Int) :
    Img × List (Int × Int) :=
  match fuel with
  | 0 => (img, [])
  | Nat.succ f =>
    let img1 := px_apply pxf img colour x y
    if x = x1 ∧ y = y1 then (img1, [(x, y)])
    else
      let e2 := 2 * e
      let x2 := if e2 ≥ dy then x + sx else x
      let eA := if e2 ≥ dy then e + dy else e
      let y2 := if e2 ≤ dx then y + sy else y
      let eB := if e2 ≤ dx then eA + dx else eA
      let r := cgifh_line_loop f pxf colour x1 y1 sx sy dx dy img1 x2 y2 eB
      (r.1, (x, y) :: r.2)

/-- `cgifh_line` from `src/cgifh.c` (integer Bresenham).  The fuel
`dx - dy + 1` dominates the number of loop iterations, which the
`cgifh_line_run` theorems below show is exactly `max dx (-dy) + 1`. -/
def cgifh_line (img : Img) (colour : Nat) (x0 y0 x1 y1 : Int) :
    Img × List (Int × Int) :=
  match cgifh_get_px_fn img x0 y0 x1 y1 with
  | none => (img, [])
  | some pxf =>
    let sx : Int := if x0 < x1 then 1 else -1
    let sy : Int := if y0 < y1 then 1 else -1
    let dx := |x1 - x0|
    let dy := -|y1 - y0|
    cgifh_line_loop ((dx - dy).toNat + 1) pxf colour x1 y1 sx sy dx dy img x0 y0 (dx + dy)

/-- Two pixels at Chebyshev distance exactly one (8-neighbours). -/
def adj8 (p q : Int × Int) : Prop :=
  (q.1 = p.1 ∨ q.1 = p.1 + 1 ∨ q.1 = p.1 - 1) ∧
  (q.2 = p.2 ∨ q.2 = p.2 + 1 ∨ q.2 = p.2 - 1) ∧
  ¬(q.1 = p.1 ∧ q.2 = p.2)

/-- A bitmap font glyph (`cgifh_glyph_t`): the x-advance and the 8 rows of
bitmap data (`uint8_t data[8]`). -/
structure Glyph where
  advance : Nat
  data : List Nat
deriving DecidableEq

/-- A glyph table entry with no designated initializer in the source:
advance 0 and blank rows. -/
def glyph_blank : Glyph := ⟨0, [0, 0, 0, 0, 0, 0, 0, 0]⟩

/-- Glyph table entry for character code 32 ( ). -/
def glyph_032 : Glyph := ⟨3, [0, 0, 0, 0, 0, 0, 0, 0]⟩

/-- Glyph table entry for character code 33 (!). -/
def glyph_033 : Glyph := ⟨2, [128, 128, 128, 128, 0, 128, 0, 0]⟩

/-- Glyph table entry for character code 34 ("). -/
def glyph_034 : Glyph := ⟨4, [160, 160, 0, 0, 0, 0, 0, 0]⟩

/-- Glyph table entry for character code 40 ((). -/
def glyph_040 : Glyph := ⟨3, [64, 128, 128, 128, 128, 128, 64, 0]⟩

/-- Glyph table entry for character code 41 ()). -/
def glyph_041 : Glyph := ⟨3, [128, 64, 64, 64, 64, 64, 128, 0]⟩

/-- Glyph table entry for character code 44 (,). -/
def glyph_044 : Glyph := ⟨3, [0, 0, 0, 0, 64, 128, 0, 0]⟩

/-- Glyph table entry for character code 45 (-). -/
def glyph_045 : Glyph := ⟨4, [0, 0, 0, 224, 0, 0, 0, 0]⟩

/-- Glyph table entry for character code 46 (.). -/
def glyph_046 : Glyph := ⟨2, [0, 0, 0, 0, 0, 128, 0, 0]⟩

/-- Glyph table entry for character code 48 (0). -/
def glyph_048 : Glyph := ⟨6, [112, 136, 152, 200, 136, 112, 0, 0]⟩

/-- Glyph table entry for character code 49 (1). -/
def glyph_049 : Glyph := ⟨6, [32, 96, 32, 32, 32, 112, 0, 0]⟩

/-- Glyph table entry for character code 50 (2). -/
def glyph_050 : Glyph := ⟨6, [112, 136, 16, 96, 128, 248, 0, 0]⟩

/-- Glyph table entry for character code 51 (3). -/
def glyph_051 : Glyph := ⟨6, [112, 136, 48, 8, 136, 112, 0, 0]⟩

/-- Glyph table entry for character code 52 (4). -/
def glyph_052 : Glyph := ⟨6, [16, 48, 80, 144, 248, 16, 0, 0]⟩

/-- Glyph table entry for character code 53 (5). -/
def glyph_053 : Glyph := ⟨6, [248, 128, 240, 8, 136, 112, 0, 0]⟩

/-- Glyph table entry for character code 54 (6). -/
def glyph_054 : Glyph := ⟨6, [112, 128, 240, 136, 136, 112, 0, 0]⟩

/-- Glyph table entry for character code 55 (7). -/
def glyph_055 : Glyph := ⟨6, [248, 16, 32, 64, 64, 64, 0, 0]⟩

/-- Glyph table entry for character code 56 (8). -/
def glyph_056 : Glyph := ⟨6, [112, 136, 112, 136, 136, 112, 0, 0]⟩

/-- Glyph table entry for character code 57 (9). -/
def glyph_057 : Glyph := ⟨6, [112, 136, 136, 120, 8, 112, 0, 0]⟩

/-- Glyph table entry for character code 58 (:). -/
def glyph_058 : Glyph := ⟨2, [0, 0, 128, 0, 0, 128, 0, 0]⟩

/-- Glyph table entry for character code 59 (;). -/
def glyph_059 : Glyph := ⟨3, [0, 0, 64, 0, 0, 64, 128, 0]⟩

/-- Glyph table entry for character code 63 (?). -/
def glyph_063 : Glyph := ⟨6, [112, 136, 16, 32, 0, 32, 0, 0]⟩

/-- Glyph table entry for character code 65 (A). -/
def glyph_065 : Glyph := ⟨6, [32, 80, 136, 248, 136, 136, 0, 0]⟩

/-- Glyph table entry for character code 66 (B). -/
def glyph_066 : Glyph := ⟨6, [240, 136, 240, 136, 136, 240, 0, 0]⟩

/-- Glyph table entry for character code 67 (C). -/
def glyph_067 : Glyph := ⟨6, [112, 136, 128, 128, 136, 112, 0, 0]⟩

/-- Glyph table entry for character code 68 (D). -/
def glyph_068 : Glyph := ⟨6, [240, 136, 136, 136, 136, 240, 0, 0]⟩

/-- Glyph table entry for character code 69 (E). -/
def glyph_069 : Glyph := ⟨6, [248, 128, 240, 128, 128, 248, 0, 0]⟩

/-- Glyph table entry for character code 70 (F). -/
def glyph_070 : Glyph := ⟨6, [248, 128, 240, 128, 128, 128, 0, 0]⟩

/-- Glyph table entry for character code 71 (G). -/
def glyph_071 : Glyph := ⟨6, [112, 136, 128, 152, 136, 112, 0, 0]⟩

/-- Glyph table entry for character code 72 (H). -/
def glyph_072 : Glyph := ⟨6, [136, 136, 248, 136, 136, 136, 0, 0]⟩

/-- Glyph table entry for character code 73 (I). -/
def glyph_073 : Glyph := ⟨4, [224, 64, 64, 64, 64, 224, 0, 0]⟩

/-- Glyph table entry for character code 74 (J). -/
def glyph_074 : Glyph := ⟨5, [112, 16, 16, 16, 144, 96, 0, 0]⟩

/-- Glyph table entry for character code 75 (K). -/
def glyph_075 : Glyph := ⟨6, [144, 160, 192, 160, 144, 136, 0, 0]⟩

/-- Glyph table entry for character code 76 (L). -/
def glyph_076 : Glyph := ⟨5, [128, 128, 128, 128, 128, 240, 0, 0]⟩

/-- Glyph table entry for character code 77 (M). -/
def glyph_077 : Glyph := ⟨8, [130, 198, 170, 146, 146, 130, 0, 0]⟩

/-- Glyph table entry for character code 78 (N). -/
def glyph_078 : Glyph := ⟨6, [136, 200, 168, 152, 136, 136, 0, 0]⟩

/-- Glyph table entry for character code 79 (O). -/
def glyph_079 : Glyph := ⟨6, [112, 136, 136, 136, 136, 112, 0, 0]⟩

/-- Glyph table entry for character code 80 (P). -/
def glyph_080 : Glyph := ⟨6, [240, 136, 240, 128, 128, 128, 0, 0]⟩

/-- Glyph table entry for character code 81 (Q). -/
def glyph_081 : Glyph := ⟨6, [112, 136, 136, 136, 80, 56, 0, 0]⟩

/-- Glyph table entry for character code 82 (R). -/
def glyph_082 : Glyph := ⟨6, [224, 144, 224, 144, 136, 136, 0, 0]⟩

/-- Glyph table entry for character code 83 (S). -/
def glyph_083 : Glyph := ⟨7, [120, 132, 96, 24, 132, 120, 0, 0]⟩

/-- Glyph table entry for character code 84 (T). -/
def glyph_084 : Glyph := ⟨6, [248, 32, 32, 32, 32, 32, 0, 0]⟩

/-- Glyph table entry for character code 85 (U). -/
def glyph_085 : Glyph := ⟨6, [136, 136, 136, 136, 136, 112, 0, 0]⟩

/-- Glyph table entry for character code 86 (V). -/
def glyph_086 : Glyph := ⟨6, [136, 136, 136, 80, 80, 32, 0, 0]⟩

/-- Glyph table entry for character code 87 (W). -/
def glyph_087 : Glyph := ⟨8, [130, 130, 146, 170, 198, 130, 0, 0]⟩

/-- Glyph table entry for character code 88 (X). -/
def glyph_088 : Glyph := ⟨6, [136, 80, 32, 32, 80, 136, 0, 0]⟩

/-- Glyph table entry for character code 89 (Y). -/
def glyph_089 : Glyph := ⟨6, [136, 136, 80, 32, 32, 32, 0, 0]⟩

/-- Glyph table entry for character code 90 (Z). -/
def glyph_090 : Glyph := ⟨5, [240, 16, 32, 64, 128, 240, 0, 0]⟩

/-- Glyph table entry for character code 91 ([). -/
def glyph_091 : Glyph := ⟨3, [192, 128, 128, 128, 128, 128, 192, 0]⟩

/-- Glyph table entry for character code 93 (]). -/
def glyph_093 : Glyph := ⟨3, [192, 64, 64, 64, 64, 64, 192, 0]⟩

/-- Glyph table entry for character code 95 (_). -/
def glyph_095 : Glyph := ⟨6, [0, 0, 0, 0, 0, 0, 0, 248]⟩

/-- Glyph table entry for character code 97 (a). -/
def glyph_097 : Glyph := ⟨5, [0, 224, 16, 112, 144, 112, 0, 0]⟩

/-- Glyph table entry for character code 98 (b). -/
def glyph_098 : Glyph := ⟨6, [128, 240, 136, 136, 136, 240, 0, 0]⟩

/-- Glyph table entry for character code 99 (c). -/
def glyph_099 : Glyph := ⟨6, [0, 112, 136, 128, 136, 112, 0, 0]⟩

/-- Glyph table entry for character code 100 (d). -/
def glyph_100 : Glyph := ⟨6, [8, 120, 136, 136, 136, 120, 0, 0]⟩

/-- Glyph table entry for character code 101 (e). -/
def glyph_101 : Glyph := ⟨6, [0, 112, 136, 240, 128, 120, 0, 0]⟩

/-- Glyph table entry for character code 102 (f). -/
def glyph_102 : Glyph := ⟨4, [96, 128, 224, 128, 128, 128, 0, 0]⟩

/-- Glyph table entry for character code 103 (g). -/
def glyph_103 : Glyph := ⟨5, [0, 96, 144, 144, 144, 112, 16, 224]⟩

/-- Glyph table entry for character code 104 (h). -/
def glyph_104 : Glyph := ⟨5, [128, 224, 144, 144, 144, 144, 0, 0]⟩

/-- Glyph table entry for character code 105 (i). -/
def glyph_105 : Glyph := ⟨2, [128, 0, 128, 128, 128, 128, 0, 0]⟩

/-- Glyph table entry for character code 106 (j). -/
def glyph_106 : Glyph := ⟨3, [64, 0, 64, 64, 64, 64, 64, 128]⟩

/-- Glyph table entry for character code 107 (k). -/
def glyph_107 : Glyph := ⟨5, [128, 144, 160, 192, 160, 144, 0, 0]⟩

/-- Glyph table entry for character code 108 (l). -/
def glyph_108 : Glyph := ⟨2, [128, 128, 128, 128, 128, 128, 0, 0]⟩

/-- Glyph table entry for character code 109 (m). -/
def glyph_109 : Glyph := ⟨6, [0, 240, 168, 168, 136, 136, 0, 0]⟩

/-- Glyph table entry for character code 110 (n). -/
def glyph_110 : Glyph := ⟨5, [0, 224, 144, 144, 144, 144, 0, 0]⟩

/-- Glyph table entry for character code 111 (o). -/
def glyph_111 : Glyph := ⟨5, [0, 96, 144, 144, 144, 96, 0, 0]⟩

/-- Glyph table entry for character code 112 (p). -/
def glyph_112 : Glyph := ⟨5, [0, 224, 144, 144, 144, 224, 128, 128]⟩

/-- Glyph table entry for character code 113 (q). -/
def glyph_113 : Glyph := ⟨5, [0, 96, 144, 144, 144, 112, 16, 16]⟩

/-- Glyph table entry for character code 114 (r). -/
def glyph_114 : Glyph := ⟨5, [0, 224, 144, 128, 128, 128, 0, 0]⟩

/-- Glyph table entry for character code 115 (s). -/
def glyph_115 : Glyph := ⟨6, [0, 120, 128, 112, 8, 240, 0, 0]⟩

/-- Glyph table entry for character code 116 (t). -/
def glyph_116 : Glyph := ⟨4, [128, 224, 128, 128, 128, 96, 0, 0]⟩

/-- Glyph table entry for character code 117 (u). -/
def glyph_117 : Glyph := ⟨5, [0, 144, 144, 144, 144, 112, 0, 0]⟩

/-- Glyph table entry for character code 118 (v). -/
def glyph_118 : Glyph := ⟨6, [0, 136, 136, 136, 80, 32, 0, 0]⟩

/-- Glyph table entry for character code 119 (w). -/
def glyph_119 : Glyph := ⟨6, [0, 136, 168, 168, 168, 112, 0, 0]⟩

/-- Glyph table entry for character code 120 (x). -/
def glyph_120 : Glyph := ⟨6, [0, 136, 80, 32, 80, 136, 0, 0]⟩

/-- Glyph table entry for character code 121 (y). -/
def glyph_121 : Glyph := ⟨5, [0, 144, 144, 144, 144, 112, 16, 224]⟩

/-- Glyph table entry for character code 122 (z). -/
def glyph_122 : Glyph := ⟨5, [0, 240, 16, 96, 128, 240, 0, 0]⟩

/-- Glyph table entry for character code 123 ({). -/
def glyph_123 : Glyph := ⟨4, [32, 64, 64, 192, 64, 64, 32, 0]⟩

/-- Glyph table entry for character code 125 (}). -/
def glyph_125 : Glyph := ⟨4, [128, 64, 64, 96, 64, 64, 128, 0]⟩

/-- The bitmap font table `font_h8` (glyph data from `include/cgifh.h`,
entry count per `font.h`'s `CGIFH_GLYPH_COUNT = 128`): one entry per 7-bit
ASCII code; codes without a designated initializer in the source are the
blank glyph.  Rows are listed top to bottom, one byte per row, most
significant bit = leftmost column. -/
def font_h8 : List Glyph := [
  glyph_blank, glyph_blank, glyph_blank, glyph_blank, glyph_blank, glyph_blank,
  glyph_blank, glyph_blank, glyph_blank, glyph_blank, glyph_blank, glyph_blank,
  glyph_blank, glyph_blank, glyph_blank, glyph_blank, glyph_blank, glyph_blank,
  glyph_blank, glyph_blank, glyph_blank, glyph_blank, glyph_blank, glyph_blank,
  glyph_blank, glyph_blank, glyph_blank, glyph_blank, glyph_blank, glyph_blank,
  glyph_blank, glyph_blank, glyph_032, glyph_033, glyph_034, glyph_blank,
  glyph_blank, glyph_blank, glyph_blank, glyph_blank, glyph_040, glyph_041,
  glyph_blank, glyph_blank, glyph_044, glyph_045, glyph_046, glyph_blank,
  glyph_048, glyph_049, glyph_050, glyph_051, glyph_052, glyph_053,
  glyph_054, glyph_055, glyph_056, glyph_057, glyph_058, glyph_059,
  glyph_blank, glyph_blank, glyph_blank, glyph_063, glyph_blank, glyph_065,
  glyph_066, glyph_067, glyph_068, glyph_069, glyph_070, glyph_071,
  glyph_072, glyph_073, glyph_074, glyph_075, glyph_076, glyph_077,
  glyph_078, glyph_079, glyph_080, glyph_081, glyph_082, glyph_083,
  glyph_084, glyph_085, glyph_086, glyph_087, glyph_088, glyph_089,
  glyph_090, glyph_091, glyph_blank, glyph_093, glyph_blank, glyph_095,
  glyph_blank, glyph_097, glyph_098, glyph_099, glyph_100, glyph_101,
  glyph_102, glyph_103, glyph_104, glyph_105, glyph_106, glyph_107,
  glyph_108, glyph_109, glyph_110, glyph_111, glyph_112, glyph_113,
  glyph_114, glyph_115, glyph_116, glyph_117, glyph_118, glyph_119,
  glyph_120, glyph_121, glyph_122, glyph_123, glyph_blank, glyph_125,
  glyph_blank, glyph_blank
]


/-- `cgifh_get_glyph` from `src/cgifh.c`: `NULL` when the (unsigned) character
code is out of the table's range, otherwise a pointer to the entry.  The
argument is the `(unsigned char)` view of the C `char`. -/
def cgifh_get_glyph (character : Nat) : Option Glyph :=
  if character ≥ font_h8.length then none
  else some (font_h8.getD character ⟨0, []⟩)

/-- The C bit test `glyph->data[row] & (0x80 >> col)`. -/
def glyph_bit (v : Nat) (col : Nat) : Bool :=
  Nat.land v (128 >>> col) != 0

/-- The pixels painted by the drawing loops of `cgifh_char_scaled`, in call
order: for each of the 8 rows (skipping all-blank rows, as the code does),
each of the 8 columns whose bit is set contributes a `scale_x` × `scale_y`
block based at `(x + col * scale_x, y + row * scale_y)`. -/
def char_pixels (g : Glyph) (scale_x scale_y x y : Int) : List (Int × Int) :=
  (List.range 8).flatMap (fun row =>
    if g.data.getD row 0 = 0 then []
    else (List.range 8).flatMap (fun col =>
      if glyph_bit (g.data.getD row 0) col then
        (List.range scale_y.toNat).flatMap (fun i =>
          (List.range scale_x.toNat).map (fun (j : Nat) =>
            (x + (col : Int) * scale_x + (j : Int),
             y + (row : Int) * scale_y + (i : Int))))
      else []))

/-- `cgifh_char_scaled` from `src/cgifh.c`.  The C code passes
`glyph->advance` to `cgifh_get_px_fn` *before* checking `glyph == NULL`; a
`NULL` glyph is therefore dereferenced, which is undefined behaviour — the
embedding returns `none` for that path.  Otherwise the result is the updated
image, the returned advance, and the painted trace. -/
def cgifh_char_scaled (img : Img) (colour : Nat) (character : Nat)
    (scale_x scale_y x y : Int) : Option (Img × Int × List (Int × Int)) :=
  match cgifh_get_glyph character with
  | none => none
  | some glyph =>
    let px := cgifh_get_px_fn img x y
      (x + (glyph.advance : Int) * scale_x) (y + 8 * scale_y)
    if glyph.advance = 0 then some (img, 0, [])
    else
      match px with
      | none => some (img, (glyph.advance : Int) * scale_x, [])
      | some pxf =>
        let pts := char_pixels glyph scale_x scale_y x y
        some (pts.foldl (fun im p => px_apply pxf im colour p.1 p.2) img,
          (glyph.advance : Int) * scale_x, pts)

/-- `cgifh_char`: `cgifh_char_scaled` with a uniform scale. -/
def cgifh_char (img : Img) (colour : Nat) (character : Nat)
    (scale x y : Int) : Option (Img × Int × List (Int × Int)) :=
  cgifh_char_scaled img colour character scale scale x y

/-- The `while (*text)` loop of `cgifh_text`, carrying the accumulated
advance (each character is drawn at `x + advance`). -/
def cgifh_text_go (img : Img) (colour : Nat) (text : List Nat)
    (scale x y advance : Int) : Option (Img × Int) :=
  match text with
  | [] => some (img, advance)
  | c :: rest =>
    match cgifh_char img colour c scale (x + advance) y with
    | none => none
    | some (img2, adv, _) => cgifh_text_go img2 colour rest scale x y (advance + adv)

/-- `cgifh_text` from `src/cgifh.c`: draws a string (modelled as the list of
its bytes before the terminator) and returns the total advance. -/
def cgifh_text (img : Img) (colour : Nat) (text : List Nat)
    (scale x y : Int) : Option (Img × Int) :=
  cgifh_text_go img colour text scale x y 0

/-- The accumulation loop of `cgifh_text_width`: adds each character's table
advance when the glyph lookup succeeds. -/
def cgifh_text_width_go (text : List Nat) (advance : Int) : Int :=
  match text with
  | [] => advance
  | c :: rest =>
    cgifh_text_width_go rest (advance +
      (match cgifh_get_glyph c with
       | none => 0
       | some g => (g.advance : Int)))

/-- `cgifh_text_width` from `src/cgifh.c`: the accumulated advance times the
scale. -/
def cgifh_text_width (text : List Nat) (scale : Int) : Int :=
  cgifh_text_width_go text 0 * scale

lemma palette_addN_run (img : Img) (cols : Nat → Nat × Nat × Nat) :
    ∀ n, img.palette_count + n ≤ 256 →
      (palette_addN img cols n).1.palette_count = img.palette_count + n ∧
      (palette_addN img cols n).2 =
        (List.range n).map (fun i => some (img.palette_count + i)) := by
  intro n
  induction n with
  | zero => simp [palette_addN]
  | succ n ih =>
    intro h
    obtain ⟨h1, h2⟩ := ih (by omega)
    have hlt : ¬ (palette_addN img cols n).1.palette_count ≥ CGIFH_PALETTE_MAX := by
      rw [h1]; simp only [CGIFH_PALETTE_MAX]; omega
    constructor
    · simp only [palette_addN, cgifh_palette_add, hlt, if_neg hlt]
      simp [h1]
      omega
    · simp only [palette_addN, cgifh_palette_add, if_neg hlt]
      rw [h2, h1, List.range_succ]
      simp

/-- C1 (amended): `cgifh_create(width, height)` fails exactly when
`width == 0`, `height == 0`, `width > INT_MAX`, `height > INT_MAX`, or the
allocation fails; there is no check on the `width * height` product.  On
success the image has `palette_count == 0`, the given `width` and `height`,
and — whenever the product does not exceed `INT_MAX`, so that the `int`
conversion is value-preserving — `size == width * height`. -/
theorem create_spec :
    (∀ (allocOk : Bool) (pal0 : Nat → Nat) (mem : Int → Nat) (w h : Nat),
      cgifh_create allocOk pal0 mem w h = none ↔
        (w = 0 ∨ h = 0 ∨ w > INT_MAX ∨ h > INT_MAX ∨ allocOk = false)) ∧
    (∀ (allocOk : Bool) (pal0 : Nat → Nat) (mem : Int → Nat) (w h : Nat)
      (img : Img), cgifh_create allocOk pal0 mem w h = some img →
        img.palette_count = 0 ∧ img.width = (w : Int) ∧ img.height = (h : Int) ∧
        (w * h ≤ INT_MAX → img.size = w * h)) := by
  constructor
  · intro allocOk pal0 mem w h
    unfold cgifh_create
    split
    · simp_all; tauto
    · split
      · simp_all
      · simp_all
  · intro allocOk pal0 mem w h img hsome
    unfold cgifh_create at hsome
    split at hsome
    · cases hsome
    · split at hsome
      · cases hsome
      · cases hsome
        refine ⟨rfl, rfl, rfl, fun _ => rfl⟩

/-- C1 witness: `create(3, 2)` with a successful allocation produces an image
with `palette_count = 0`, width 3, height 2 and size 6. -/
theorem create_spec_witness :
    (Img.palette_count ⟨fun _ => 0, 0, 3, 2, 3 * 2, fun _ => 0⟩ = 0) ∧
    (Img.width ⟨fun _ => 0, 0, 3, 2, 3 * 2, fun _ => 0⟩ = (3 : Int)) ∧
    (Img.height ⟨fun _ => 0, 0, 3, 2, 3 * 2, fun _ => 0⟩ = (2 : Int)) ∧
    (3 * 2 ≤ INT_MAX → Img.size ⟨fun _ => 0, 0, 3, 2, 3 * 2, fun _ => 0⟩ = 3 * 2) :=
  create_spec.2 true (fun _ => 0) (fun _ => 0) 3 2
    ⟨fun _ => 0, 0, 3, 2, 3 * 2, fun _ => 0⟩ rfl

/-- C1 counterexample: the claim says creation fails whenever the product
`width * height` exceeds `INT_MAX`, but the code performs no such check:
`cgifh_create(65536, 65536)` with a successful allocation returns a non-null
image even though `65536 * 65536 > INT_MAX`. -/
theorem create_no_overflow_check :
    (cgifh_create true (fun _ => 0) (fun _ => 0) 65536 65536).isSome = true ∧
    65536 * 65536 > INT_MAX := by
  constructor
  · rfl
  · decide

/-- C2: while the palette is not full, `cgifh_palette_add` succeeds, stores
the RGB triple at slot `palette_count`, reports the pre-increment
`palette_count` through `idx_out`, and increments the count; when the
palette holds 256 entries it fails and changes nothing.  Consequently, on a
fresh image 256 successive adds report the indices `0..255` in order and
leave `palette_count = 256`, and any further add fails with the image
unchanged. -/
theorem palette_add_spec :
    (∀ (img : Img) (r g b : Nat), img.palette_count < 256 →
      (cgifh_palette_add img r g b).1 = true ∧
      (cgifh_palette_add img r g b).2.1.palette (3 * img.palette_count) = r ∧
      (cgifh_palette_add img r g b).2.1.palette (3 * img.palette_count + 1) = g ∧
      (cgifh_palette_add img r g b).2.1.palette (3 * img.palette_count + 2) = b ∧
      (cgifh_palette_add img r g b).2.1.palette_count = img.palette_count + 1 ∧
      (cgifh_palette_add img r g b).2.2 = some img.palette_count) ∧
    (∀ (img : Img) (r g b : Nat), img.palette_count = 256 →
      cgifh_palette_add img r g b = (false, img, none)) ∧
    (∀ (img : Img) (cols : Nat → Nat × Nat × Nat), img.palette_count = 0 →
      (palette_addN img cols 256).2 = (List.range 256).map some ∧
      (palette_addN img cols 256).1.palette_count = 256 ∧
      ∀ r g b, cgifh_palette_add (palette_addN img cols 256).1 r g b =
        (false, (palette_addN img cols 256).1, none)) := by
  refine ⟨?_, ?_, ?_⟩
  · intro img r g b hlt
    have hge : ¬ img.palette_count ≥ CGIFH_PALETTE_MAX := by
      simp only [CGIFH_PALETTE_MAX]; omega
    simp only [cgifh_palette_add, if_neg hge]
    refine ⟨by simp, by simp, by simp, by simp, by simp, by simp⟩
  · intro img r g b hfull
    have hge : img.palette_count ≥ CGIFH_PALETTE_MAX := by
      simp only [CGIFH_PALETTE_MAX]; omega
    simp only [cgifh_palette_add, if_pos hge]
  · intro img cols h0
    obtain ⟨h1, h2⟩ := palette_addN_run img cols 256 (by omega)
    rw [h0] at h1 h2
    refine ⟨by simpa using h2, h1, ?_⟩
    intro r g b
    have hge : (palette_addN img cols 256).1.palette_count ≥ CGIFH_PALETTE_MAX := by
      rw [h1]; simp [CGIFH_PALETTE_MAX]
    simp only [cgifh_palette_add, if_pos hge]

/-- C2 witness: on a fresh 2×2 image, the first add succeeds and reports
index 0. -/
theorem palette_add_spec_witness :
    (cgifh_palette_add (mkImg 2 2) 10 20 30).1 = true ∧
    (cgifh_palette_add (mkImg 2 2) 10 20 30).2.1.palette 0 = 10 ∧
    (cgifh_palette_add (mkImg 2 2) 10 20 30).2.1.palette 1 = 20 ∧
    (cgifh_palette_add (mkImg 2 2) 10 20 30).2.1.palette 2 = 30 ∧
    (cgifh_palette_add (mkImg 2 2) 10 20 30).2.1.palette_count = 0 + 1 ∧
    (cgifh_palette_add (mkImg 2 2) 10 20 30).2.2 = some 0 := by
  have h := palette_add_spec.1 (mkImg 2 2) 10 20 30 (by decide)
  simpa [mkImg] using h

/-- C5: `cgifh_palette_add_blend` appends, via `cgifh_palette_add` (so it
inherits its success/palette-full behaviour), the colour whose channels are
computed independently by the spec's exact integer formula
(`c0 + (c1-c0)*pos/255` when `c0 ≤ c1`, else `c0 - (c0-c1)*pos/255`,
truncating division); `pos = 0` reproduces the colour at `idx0` exactly and
`pos = 255` the colour at `idx1` exactly. -/
theorem palette_add_blend_spec :
    (∀ (img : Img) (idx0 idx1 pos : Nat),
      idx0 < img.palette_count → idx1 < img.palette_count → pos ≤ 255 →
      (∀ k, k < 3 → img.palette (3 * idx0 + k) ≤ 255 ∧ img.palette (3 * idx1 + k) ≤ 255) →
      cgifh_palette_add_blend img idx0 idx1 pos =
        cgifh_palette_add img
          (spec_blend_channel (img.palette (3 * idx0)) (img.palette (3 * idx1)) pos)
          (spec_blend_channel (img.palette (3 * idx0 + 1)) (img.palette (3 * idx1 + 1)) pos)
          (spec_blend_channel (img.palette (3 * idx0 + 2)) (img.palette (3 * idx1 + 2)) pos)) ∧
    (∀ c0 c1 : Nat, spec_blend_channel c0 c1 0 = c0) ∧
    (∀ c0 c1 : Nat, spec_blend_channel c0 c1 255 = c1) := by
  have hchan : ∀ c0 c1 pos : Nat, pos ≤ 255 → c0 ≤ 255 → c1 ≤ 255 →
      blend_channel c0 c1 pos = spec_blend_channel c0 c1 pos := by
    intro c0 c1 pos hpos h0 h1
    unfold blend_channel spec_blend_channel
    split
    · next hle =>
      have hd : (c1 - c0) * pos / 255 ≤ c1 - c0 := by
        have h1 : (c1 - c0) * pos / 255 ≤ (c1 - c0) * 255 / 255 :=
          Nat.div_le_div_right (Nat.mul_le_mul_left _ hpos)
        omega
      exact Nat.mod_eq_of_lt (by omega)
    · next hle =>
      exact Nat.mod_eq_of_lt (by omega)
  refine ⟨?_, ?_, ?_⟩
  · intro img idx0 idx1 pos h0 h1 hpos hbytes
    have b00 : img.palette (3 * idx0) ≤ 255 := by simpa using (hbytes 0 (by omega)).1
    have b10 : img.palette (3 * idx1) ≤ 255 := by simpa using (hbytes 0 (by omega)).2
    have b01 : img.palette (3 * idx0 + 1) ≤ 255 := (hbytes 1 (by omega)).1
    have b11 : img.palette (3 * idx1 + 1) ≤ 255 := (hbytes 1 (by omega)).2
    have b02 : img.palette (3 * idx0 + 2) ≤ 255 := (hbytes 2 (by omega)).1
    have b12 : img.palette (3 * idx1 + 2) ≤ 255 := (hbytes 2 (by omega)).2
    unfold cgifh_palette_add_blend
    rw [hchan _ _ _ hpos b00 b10, hchan _ _ _ hpos b01 b11, hchan _ _ _ hpos b02 b12]
  · intro c0 c1
    unfold spec_blend_channel
    split <;> simp
  · intro c0 c1
    unfold spec_blend_channel
    split
    · next hle =>
      have : (c1 - c0) * 255 / 255 = c1 - c0 := by omega
      omega
    · next hle =>
      have : (c0 - c1) * 255 / 255 = c0 - c1 := by omega
      omega

/-- C5 witness: on an image whose palette starts `(10,20,30), (110, 10, 230)`,
blending indices 0 and 1 at `pos = 128` appends via `cgifh_palette_add` the
exact interpolated triple. -/
theorem palette_add_blend_spec_witness :
    cgifh_palette_add_blend
        ⟨fun i => [10, 20, 30, 110, 10, 230].getD i 0, 2, 1, 1, 1, fun _ => 0⟩ 0 1 128 =
      cgifh_palette_add
        ⟨fun i => [10, 20, 30, 110, 10, 230].getD i 0, 2, 1, 1, 1, fun _ => 0⟩
        (spec_blend_channel 10 110 128) (spec_blend_channel 20 10 128)
        (spec_blend_channel 30 230 128) := by
  have h := palette_add_blend_spec.1
    ⟨fun i => [10, 20, 30, 110, 10, 230].getD i 0, 2, 1, 1, 1, fun _ => 0⟩ 0 1 128
    (by decide) (by decide) (by decide)
    (by intro k hk; interval_cases k <;> exact ⟨by decide, by decide⟩)
  simpa using h

lemma gpf_eq (img : Img) (x0 y0 x1 y1 : Int) :
    cgifh_get_px_fn img x0 y0 x1 y1 =
      (if 0 ≤ min x0 x1 ∧ max x0 x1 < img.width ∧
          0 ≤ min y0 y1 ∧ max y0 y1 < img.height then some PxFn.fast
       else if max x0 x1 < 0 ∨ min x0 x1 ≥ img.width ∨
          max y0 y1 < 0 ∨ min y0 y1 ≥ img.height then none
       else some PxFn.clipped) := by
  simp only [cgifh_get_px_fn]
  split_ifs <;> first | rfl | omega

lemma box_inside_iff (img : Img) (x0 y0 x1 y1 : Int) :
    (∀ p, inBox x0 y0 x1 y1 p → inRect img p) ↔
    (0 ≤ min x0 x1 ∧ max x0 x1 < img.width ∧
     0 ≤ min y0 y1 ∧ max y0 y1 < img.height) := by
  constructor
  · intro h
    have h1 := h (min x0 x1, min y0 y1)
      (by simp only [inBox, Prod.fst, Prod.snd]; omega)
    have h2 := h (max x0 x1, max y0 y1)
      (by simp only [inBox, Prod.fst, Prod.snd]; omega)
    simp only [inRect, Prod.fst, Prod.snd] at h1 h2
    omega
  · intro h p hp
    simp only [inBox] at hp
    simp only [inRect]
    omega

lemma box_outside_iff (img : Img) (x0 y0 x1 y1 : Int)
    (hw : 0 < img.width) (hh : 0 < img.height) :
    (∀ p, inBox x0 y0 x1 y1 p → ¬ inRect img p) ↔
    (max x0 x1 < 0 ∨ min x0 x1 ≥ img.width ∨
     max y0 y1 < 0 ∨ min y0 y1 ≥ img.height) := by
  constructor
  · intro h
    by_contra hc
    push_neg at hc
    obtain ⟨h1, h2, h3, h4⟩ := hc
    apply h (max (min x0 x1) 0, max (min y0 y1) 0)
    · simp only [inBox, Prod.fst, Prod.snd]; omega
    · simp only [inRect, Prod.fst, Prod.snd]; omega
  · intro h p hp hr
    simp only [inBox] at hp
    simp only [inRect] at hr
    omega

/-- C3: for a positively sized image, `cgifh_get_px_fn` classifies the
bounding box spanned by the two corners (in either order) into exactly one
of three outcomes: the fast setter when the box is fully inside
`[0,width) x [0,height)`, `NULL` when it is fully outside, the clipped
setter when it partially overlaps; and the classification does not depend
on the order in which the two corners are supplied. -/
theorem get_px_fn_spec :
    ∀ (img : Img) (x0 y0 x1 y1 : Int), 0 < img.width → 0 < img.height →
      (cgifh_get_px_fn img x0 y0 x1 y1 = some PxFn.fast ↔
        ∀ p, inBox x0 y0 x1 y1 p → inRect img p) ∧
      (cgifh_get_px_fn img x0 y0 x1 y1 = none ↔
        ∀ p, inBox x0 y0 x1 y1 p → ¬ inRect img p) ∧
      (cgifh_get_px_fn img x0 y0 x1 y1 = some PxFn.clipped ↔
        ((∃ p, inBox x0 y0 x1 y1 p ∧ inRect img p) ∧
         (∃ p, inBox x0 y0 x1 y1 p ∧ ¬ inRect img p))) ∧
      cgifh_get_px_fn img x0 y0 x1 y1 = cgifh_get_px_fn img x1 y1 x0 y0 := by
  intro img x0 y0 x1 y1 hw hh
  have hex1 : (∃ p, inBox x0 y0 x1 y1 p ∧ inRect img p) ↔
      ¬ (∀ p, inBox x0 y0 x1 y1 p → ¬ inRect img p) := by
    constructor
    · rintro ⟨p, hp, hr⟩ hall; exact hall p hp hr
    · intro h
      by_contra hc
      push_neg at hc
      exact h (fun p hp hr => hc p hp hr)
  have hex2 : (∃ p, inBox x0 y0 x1 y1 p ∧ ¬ inRect img p) ↔
      ¬ (∀ p, inBox x0 y0 x1 y1 p → inRect img p) := by
    constructor
    · rintro ⟨p, hp, hr⟩ hall; exact hr (hall p hp)
    · intro h
      by_contra hc
      push_neg at hc
      exact h (fun p hp => hc p hp)
  refine ⟨?_, ?_, ?_, ?_⟩
  · rw [gpf_eq, box_inside_iff]
    split_ifs with h1 h2 <;> simp <;> omega
  · rw [gpf_eq, box_outside_iff img x0 y0 x1 y1 hw hh]
    split_ifs with h1 h2 <;> simp <;> omega
  · rw [gpf_eq, hex1, hex2, box_inside_iff, box_outside_iff img x0 y0 x1 y1 hw hh]
    split_ifs with h1 h2 <;> simp <;> omega
  · rw [gpf_eq, gpf_eq, min_comm x1 x0, max_comm x1 x0, min_comm y1 y0, max_comm y1 y0]

/-- C3 witness: on a 3×2 image the classification of the box with corners
`(0,0)`, `(2,1)` agrees with the classification of the corner-swapped box. -/
theorem get_px_fn_spec_witness :
    cgifh_get_px_fn (mkImg 3 2) 0 0 2 1 = cgifh_get_px_fn (mkImg 3 2) 2 1 0 0 :=
  (get_px_fn_spec (mkImg 3 2) 0 0 2 1 (by decide) (by decide)).2.2.2

/-- C9: a drawing primitive whose bounding box lies entirely outside the
image rectangle leaves the image unchanged: `cgifh_line`, `cgifh_h_line`,
`cgifh_v_line` and `cgifh_rect_fill` all return the image as given (and the
line paints an empty trace). -/
theorem draw_outside_noop :
    (∀ (img : Img) (colour : Nat) (x0 y0 x1 y1 : Int),
      0 < img.width → 0 < img.height →
      (∀ p, inBox x0 y0 x1 y1 p → ¬ inRect img p) →
      cgifh_line img colour x0 y0 x1 y1 = (img, [])) ∧
    (∀ (img : Img) (colour : Nat) (x0 x1 y : Int),
      0 < img.width → 0 < img.height →
      (∀ p, inBox x0 y x1 y p → ¬ inRect img p) →
      cgifh_h_line img colour x0 x1 y = img) ∧
    (∀ (img : Img) (colour : Nat) (y0 y1 x : Int),
      0 < img.width → 0 < img.height →
      (∀ p, inBox x y0 x y1 p → ¬ inRect img p) →
      cgifh_v_line img colour y0 y1 x = img) ∧
    (∀ (img : Img) (colour : Nat) (x y w h : Int),
      0 < img.width → 0 < img.height →
      (∀ p, inBox x y (x + w) (y + h) p → ¬ inRect img p) →
      cgifh_rect_fill img colour x y w h = img) := by
  refine ⟨?_, ?_, ?_, ?_⟩
  · intro img colour x0 y0 x1 y1 hw hh hout
    have hnone : cgifh_get_px_fn img x0 y0 x1 y1 = none := by
      rw [gpf_eq, if_neg, if_pos ((box_outside_iff img x0 y0 x1 y1 hw hh).1 hout)]
      have := (box_outside_iff img x0 y0 x1 y1 hw hh).1 hout
      omega
    simp [cgifh_line, hnone]
  · intro img colour x0 x1 y hw hh hout
    have hnone : cgifh_get_px_fn img x0 y x1 y = none := by
      rw [gpf_eq, if_neg, if_pos ((box_outside_iff img x0 y x1 y hw hh).1 hout)]
      have := (box_outside_iff img x0 y x1 y hw hh).1 hout
      omega
    simp [cgifh_h_line, hnone]
  · intro img colour y0 y1 x hw hh hout
    have hnone : cgifh_get_px_fn img x y0 x y1 = none := by
      rw [gpf_eq, if_neg, if_pos ((box_outside_iff img x y0 x y1 hw hh).1 hout)]
      have := (box_outside_iff img x y0 x y1 hw hh).1 hout
      omega
    simp [cgifh_v_line, hnone]
  · intro img colour x y w h hw hh hout
    have hnone : cgifh_get_px_fn img x y (x + w) (y + h) = none := by
      rw [gpf_eq, if_neg, if_pos ((box_outside_iff img x y (x + w) (y + h) hw hh).1 hout)]
      have := (box_outside_iff img x y (x + w) (y + h) hw hh).1 hout
      omega
    simp [cgifh_rect_fill, hnone]

/-- C9 witness: on a 4×3 image, a line, horizontal line, vertical line and
filled rectangle placed entirely at negative coordinates leave the image
unchanged. -/
theorem draw_outside_noop_witness :
    cgifh_line (mkImg 4 3) 7 (-5) (-4) (-2) (-1) = (mkImg 4 3, []) ∧
    cgifh_h_line (mkImg 4 3) 7 (-5) (-2) (-1) = mkImg 4 3 ∧
    cgifh_v_line (mkImg 4 3) 7 (-5) (-2) (-1) = mkImg 4 3 ∧
    cgifh_rect_fill (mkImg 4 3) 7 (-5) (-4) 2 2 = mkImg 4 3 := by
  refine ⟨?_, ?_, ?_, ?_⟩
  · exact draw_outside_noop.1 (mkImg 4 3) 7 (-5) (-4) (-2) (-1) (by decide) (by decide)
      (by intro p hp hr; unfold inBox at hp; unfold inRect at hr; simp [mkImg] at hp hr; omega)
  · exact draw_outside_noop.2.1 (mkImg 4 3) 7 (-5) (-2) (-1) (by decide) (by decide)
      (by intro p hp hr; unfold inBox at hp; unfold inRect at hr; simp [mkImg] at hp hr; omega)
  · exact draw_outside_noop.2.2.1 (mkImg 4 3) 7 (-5) (-2) (-1) (by decide) (by decide)
      (by intro p hp hr; unfold inBox at hp; unfold inRect at hr; simp [mkImg] at hp hr; omega)
  · exact draw_outside_noop.2.2.2 (mkImg 4 3) 7 (-5) (-4) 2 2 (by decide) (by decide)
      (by intro p hp hr; unfold inBox at hp; unfold inRect at hr; simp [mkImg] at hp hr; omega)

lemma getLast?_cons_of_ne_nil {α : Type} (a : α) (l : List α) (h : l ≠ []) :
    (a :: l).getLast? = l.getLast? := by
  cases l with
  | nil => exact absurd rfl h
  | cons b t => simp [List.getLast?_cons_cons]

lemma line_loop_succ (f : Nat) (pxf : PxFn) (colour : Nat)
    (x1 y1 sx sy dx dy : Int) (img : Img) (x y e : Int) :
    cgifh_line_loop (f + 1) pxf colour x1 y1 sx sy dx dy img x y e =
      if x = x1 ∧ y = y1 then (px_apply pxf img colour x y, [(x, y)])
      else
        ((cgifh_line_loop f pxf colour x1 y1 sx sy dx dy
            (px_apply pxf img colour x y)
            (if 2 * e ≥ dy then x + sx else x)
            (if 2 * e ≤ dx then y + sy else y)
            (if 2 * e ≤ dx then (if 2 * e ≥ dy then e + dy else e) + dx
             else (if 2 * e ≥ dy then e + dy else e))).1,
         (x, y) :: (cgifh_line_loop f pxf colour x1 y1 sx sy dx dy
            (px_apply pxf img colour x y)
            (if 2 * e ≥ dy then x + sx else x)
            (if 2 * e ≤ dx then y + sy else y)
            (if 2 * e ≤ dx then (if 2 * e ≥ dy then e + dy else e) + dx
             else (if 2 * e ≥ dy then e + dy else e))).2) := rfl

lemma line_loop_head (f : Nat) (pxf : PxFn) (colour : Nat)
    (x1 y1 sx sy dx dy : Int) (img : Img) (x y e : Int) (hf : 0 < f) :
    (cgifh_line_loop f pxf colour x1 y1 sx sy dx dy img x y e).2.head? =
      some (x, y) := by
  cases f with
  | zero => exact absurd hf (by omega)
  | succ f =>
    rw [line_loop_succ]
    split <;> simp

lemma line_loop_chain (pxf : PxFn) (colour : Nat) (x1 y1 sx sy dx dy : Int)
    (hsx : sx = 1 ∨ sx = -1) (hsy : sy = 1 ∨ sy = -1)
    (hdx : 0 ≤ dx) (hdy : dy ≤ 0) :
    ∀ (f : Nat) (img : Img) (x y e : Int),
      List.Chain' adj8 (cgifh_line_loop f pxf colour x1 y1 sx sy dx dy img x y e).2 := by
  intro f
  induction f with
  | zero => intro img x y e; simp [cgifh_line_loop]
  | succ f ih =>
    intro img x y e
    rw [line_loop_succ]
    split
    · simp
    · rw [List.chain'_cons']
      refine ⟨?_, ih _ _ _ _⟩
      intro b hb
      cases f with
      | zero => simp [cgifh_line_loop] at hb
      | succ f =>
        rw [line_loop_head _ _ _ _ _ _ _ _ _ _ _ _ _ (by omega)] at hb
        simp only [Option.mem_def, Option.some_inj] at hb
        subst hb
        have hne : ¬ (2 * e < dy ∧ 2 * e > dx) := by omega
        simp only [adj8]
        rcases hsx with h1 | h1 <;> rcases hsy with h2 | h2 <;> subst h1 h2 <;>
          split_ifs <;> exact ⟨by omega, by omega, by omega⟩

lemma line_loop_measure (pxf : PxFn) (colour : Nat) (x1 y1 sx sy dx dy : Int)
    (hsx : sx = 1 ∨ sx = -1) (hsy : sy = 1 ∨ sy = -1)
    (hdx : 0 ≤ dx) (hdy : dy ≤ 0) :
    ∀ (f : Nat) (img : Img) (x y e : Int),
      ∀ q ∈ (cgifh_line_loop f pxf colour x1 y1 sx sy dx dy img x y e).2,
        sx * x + sy * y ≤ sx * q.1 + sy * q.2 := by
  intro f
  induction f with
  | zero => intro img x y e q hq; simp [cgifh_line_loop] at hq
  | succ f ih =>
    intro img x y e q hq
    rw [line_loop_succ] at hq
    split at hq
    · simp at hq
      subst hq
      simp
    · simp only [List.mem_cons] at hq
      rcases hq with hq | hq
      · subst hq; simp
      · have step := ih (px_apply pxf img colour x y)
          (if 2 * e ≥ dy then x + sx else x)
          (if 2 * e ≤ dx then y + sy else y)
          (if 2 * e ≤ dx then (if 2 * e ≥ dy then e + dy else e) + dx
           else (if 2 * e ≥ dy then e + dy else e)) q hq
        have hne : ¬ (2 * e < dy ∧ 2 * e > dx) := by omega
        rcases hsx with h1 | h1 <;> rcases hsy with h2 | h2 <;> subst h1 h2 <;>
          split_ifs at step <;> omega

lemma line_loop_step_lt (pxf : PxFn) (colour : Nat) (x1 y1 sx sy dx dy : Int)
    (hsx : sx = 1 ∨ sx = -1) (hsy : sy = 1 ∨ sy = -1)
    (hdx : 0 ≤ dx) (hdy : dy ≤ 0) (x y e : Int) :
    sx * x + sy * y <
      sx * (if 2 * e ≥ dy then x + sx else x) +
      sy * (if 2 * e ≤ dx then y + sy else y) := by
  have hne : ¬ (2 * e < dy ∧ 2 * e > dx) := by omega
  rcases hsx with h1 | h1 <;> rcases hsy with h2 | h2 <;> subst h1 h2 <;>
    split_ifs <;> omega

lemma line_loop_nodup (pxf : PxFn) (colour : Nat) (x1 y1 sx sy dx dy : Int)
    (hsx : sx = 1 ∨ sx = -1) (hsy : sy = 1 ∨ sy = -1)
    (hdx : 0 ≤ dx) (hdy : dy ≤ 0) :
    ∀ (f : Nat) (img : Img) (x y e : Int),
      (cgifh_line_loop f pxf colour x1 y1 sx sy dx dy img x y e).2.Nodup := by
  intro f
  induction f with
  | zero => intro img x y e; simp [cgifh_line_loop]
  | succ f ih =>
    intro img x y e
    rw [line_loop_succ]
    split
    · simp
    · simp only [List.nodup_cons]
      refine ⟨?_, ih _ _ _ _⟩
      intro hmem
      have hm := line_loop_measure pxf colour x1 y1 sx sy dx dy hsx hsy hdx hdy f
        (px_apply pxf img colour x y)
        (if 2 * e ≥ dy then x + sx else x)
        (if 2 * e ≤ dx then y + sy else y)
        (if 2 * e ≤ dx then (if 2 * e ≥ dy then e + dy else e) + dx
         else (if 2 * e ≥ dy then e + dy else e)) (x, y) hmem
      have hlt := line_loop_step_lt pxf colour x1 y1 sx sy dx dy hsx hsy hdx hdy x y e
      dsimp only at hm
      omega

lemma line_loop_trace_succ (f : Nat) (pxf : PxFn) (colour : Nat)
    (x1 y1 sx sy dx dy : Int) (img : Img) (x y e : Int) :
    (cgifh_line_loop (f + 1) pxf colour x1 y1 sx sy dx dy img x y e).2 =
      if x = x1 ∧ y = y1 then [(x, y)]
      else (x, y) :: (cgifh_line_loop f pxf colour x1 y1 sx sy dx dy
            (px_apply pxf img colour x y)
            (if 2 * e ≥ dy then x + sx else x)
            (if 2 * e ≤ dx then y + sy else y)
            (if 2 * e ≤ dx then (if 2 * e ≥ dy then e + dy else e) + dx
             else (if 2 * e ≥ dy then e + dy else e))).2 := by
  rw [line_loop_succ]
  split <;> rfl

lemma line_loop_run_x (pxf : PxFn) (colour : Nat) (x1 y1 sx sy dx dy : Int)
    (hsx : sx = 1 ∨ sx = -1) (hsy : sy = 1 ∨ sy = -1)
    (hD : 0 < dx) (hdy : dy ≤ 0) (hDE : -dy ≤ dx) :
    ∀ (n : Nat) (fuel : Nat), n < fuel → ∀ (x y e t B : Int) (img : Img),
      sx * (x1 - x) = (n : Int) →
      sy * (y1 - y) = B →
      t = B * dx + (n : Int) * dy →
      e = dx + dy - t →
      -dx ≤ 2 * t → 2 * t ≤ dx →
      (cgifh_line_loop fuel pxf colour x1 y1 sx sy dx dy img x y e).2.length = n + 1 ∧
      (cgifh_line_loop fuel pxf colour x1 y1 sx sy dx dy img x y e).2.getLast? =
        some (x1, y1) := by
  intro n
  induction n with
  | zero =>
    intro fuel hfuel x y e t B img hA hB ht he hlo hhi
    obtain ⟨f, rfl⟩ : ∃ f, fuel = f + 1 := ⟨fuel - 1, by omega⟩
    rw [Nat.cast_zero] at hA ht
    rw [zero_mul, add_zero] at ht
    have hxx : x = x1 := by rcases hsx with h | h <;> subst h <;> omega
    have hB0 : B = 0 := by
      rcases lt_trichotomy B 0 with hb | hb | hb
      · have h1 : B ≤ -1 := by omega
        have h2 : B * dx ≤ -1 * dx := mul_le_mul_of_nonneg_right h1 (by omega)
        omega
      · exact hb
      · have h1 : (1 : Int) ≤ B := by omega
        have h2 : 1 * dx ≤ B * dx := mul_le_mul_of_nonneg_right h1 (by omega)
        omega
    have hyy : y = y1 := by rcases hsy with h | h <;> subst h <;> omega
    subst hxx hyy
    rw [line_loop_trace_succ, if_pos ⟨rfl, rfl⟩]
    simp
  | succ n ih =>
    intro fuel hfuel x y e t B img hA hB ht he hlo hhi
    obtain ⟨f, rfl⟩ : ∃ f, fuel = f + 1 := ⟨fuel - 1, by omega⟩
    push_cast at hA ht
    have hxne : ¬ (x = x1 ∧ y = y1) := by
      rintro ⟨h1, h2⟩
      subst h1
      rcases hsx with h | h <;> subst h <;> omega
    have hX : 2 * e ≥ dy := by omega
    have hA' : sx * (x1 - (x + sx)) = (n : Int) := by
      rcases hsx with h | h <;> subst h <;> omega
    rw [line_loop_trace_succ, if_neg hxne]
    by_cases hY : 2 * e ≤ dx
    · have hB' : sy * (y1 - (y + sy)) = B - 1 := by
        rcases hsy with h | h <;> subst h <;> omega
      have ht' : t - dx - dy = (B - 1) * dx + (n : Int) * dy := by
        linear_combination ht
      have he' : (e + dy) + dx = dx + dy - (t - dx - dy) := by omega
      have hlo' : -dx ≤ 2 * (t - dx - dy) := by omega
      have hhi' : 2 * (t - dx - dy) ≤ dx := by omega
      obtain ⟨hlen, hlast⟩ := ih f (by omega) (x + sx) (y + sy) ((e + dy) + dx)
        (t - dx - dy) (B - 1) (px_apply pxf img colour x y) hA' hB' ht' he' hlo' hhi'
      simp only [if_pos hX, if_pos hY]
      have hne : (cgifh_line_loop f pxf colour x1 y1 sx sy dx dy
          (px_apply pxf img colour x y) (x + sx) (y + sy) ((e + dy) + dx)).2 ≠ [] := by
        intro h0
        rw [h0] at hlen
        simp at hlen
      refine ⟨?_, ?_⟩
      · rw [List.length_cons, hlen]
      · rw [getLast?_cons_of_ne_nil _ _ hne, hlast]
    · have hB' : sy * (y1 - y) = B := hB
      have ht' : t - dy = B * dx + (n : Int) * dy := by
        linear_combination ht
      have he' : e + dy = dx + dy - (t - dy) := by omega
      have hlo' : -dx ≤ 2 * (t - dy) := by omega
      have hhi' : 2 * (t - dy) ≤ dx := by omega
      obtain ⟨hlen, hlast⟩ := ih f (by omega) (x + sx) y (e + dy)
        (t - dy) B (px_apply pxf img colour x y) hA' hB' ht' he' hlo' hhi'
      simp only [if_pos hX, if_neg hY]
      have hne : (cgifh_line_loop f pxf colour x1 y1 sx sy dx dy
          (px_apply pxf img colour x y) (x + sx) y (e + dy)).2 ≠ [] := by
        intro h0
        rw [h0] at hlen
        simp at hlen
      refine ⟨?_, ?_⟩
      · rw [List.length_cons, hlen]
      · rw [getLast?_cons_of_ne_nil _ _ hne, hlast]

lemma line_loop_run_y (pxf : PxFn) (colour : Nat) (x1 y1 sx sy dx dy : Int)
    (hsx : sx = 1 ∨ sx = -1) (hsy : sy = 1 ∨ sy = -1)
    (hE : 0 < -dy) (hdx : 0 ≤ dx) (hED : dx ≤ -dy) :
    ∀ (n : Nat) (fuel : Nat), n < fuel → ∀ (x y e t A : Int) (img : Img),
      sy * (y1 - y) = (n : Int) →
      sx * (x1 - x) = A →
      t = (n : Int) * dx + A * dy →
      e = dx + dy - t →
      dy ≤ 2 * t → 2 * t ≤ -dy →
      (cgifh_line_loop fuel pxf colour x1 y1 sx sy dx dy img x y e).2.length = n + 1 ∧
      (cgifh_line_loop fuel pxf colour x1 y1 sx sy dx dy img x y e).2.getLast? =
        some (x1, y1) := by
  intro n
  induction n with
  | zero =>
    intro fuel hfuel x y e t A img hB hA ht he hlo hhi
    obtain ⟨f, rfl⟩ : ∃ f, fuel = f + 1 := ⟨fuel - 1, by omega⟩
    rw [Nat.cast_zero] at hB ht
    rw [zero_mul, zero_add] at ht
    have hyy : y = y1 := by rcases hsy with h | h <;> subst h <;> omega
    have hA0 : A = 0 := by
      rcases lt_trichotomy A 0 with ha | ha | ha
      · have h1 : A ≤ -1 := by omega
        have h2 : -1 * dy ≤ A * dy := mul_le_mul_of_nonpos_right h1 (by omega)
        omega
      · exact ha
      · have h1 : (1 : Int) ≤ A := by omega
        have h2 : A * dy ≤ 1 * dy := mul_le_mul_of_nonpos_right h1 (by omega)
        omega
    have hxx : x = x1 := by rcases hsx with h | h <;> subst h <;> omega
    subst hxx hyy
    rw [line_loop_trace_succ, if_pos ⟨rfl, rfl⟩]
    simp
  | succ n ih =>
    intro fuel hfuel x y e t A img hB hA ht he hlo hhi
    obtain ⟨f, rfl⟩ : ∃ f, fuel = f + 1 := ⟨fuel - 1, by omega⟩
    push_cast at hB ht
    have hyne : ¬ (x = x1 ∧ y = y1) := by
      rintro ⟨h1, h2⟩
      subst h2
      rcases hsy with h | h <;> subst h <;> omega
    have hY : 2 * e ≤ dx := by omega
    have hB' : sy * (y1 - (y + sy)) = (n : Int) := by
      rcases hsy with h | h <;> subst h <;> omega
    rw [line_loop_trace_succ, if_neg hyne]
    by_cases hX : 2 * e ≥ dy
    · have hA' : sx * (x1 - (x + sx)) = A - 1 := by
        rcases hsx with h | h <;> subst h <;> omega
      have ht' : t - dx - dy = (n : Int) * dx + (A - 1) * dy := by
        linear_combination ht
      have he' : (e + dy) + dx = dx + dy - (t - dx - dy) := by omega
      have hlo' : dy ≤ 2 * (t - dx - dy) := by omega
      have hhi' : 2 * (t - dx - dy) ≤ -dy := by omega
      obtain ⟨hlen, hlast⟩ := ih f (by omega) (x + sx) (y + sy) ((e + dy) + dx)
        (t - dx - dy) (A - 1) (px_apply pxf img colour x y) hB' hA' ht' he' hlo' hhi'
      simp only [if_pos hX, if_pos hY]
      have hne : (cgifh_line_loop f pxf colour x1 y1 sx sy dx dy
          (px_apply pxf img colour x y) (x + sx) (y + sy) ((e + dy) + dx)).2 ≠ [] := by
        intro h0
        rw [h0] at hlen
        simp at hlen
      refine ⟨?_, ?_⟩
      · rw [List.length_cons, hlen]
      · rw [getLast?_cons_of_ne_nil _ _ hne, hlast]
    · have hA' : sx * (x1 - x) = A := hA
      have ht' : t - dx = (n : Int) * dx + A * dy := by
        linear_combination ht
      have he' : e + dx = dx + dy - (t - dx) := by omega
      have hlo' : dy ≤ 2 * (t - dx) := by omega
      have hhi' : 2 * (t - dx) ≤ -dy := by omega
      obtain ⟨hlen, hlast⟩ := ih f (by omega) x (y + sy) (e + dx)
        (t - dx) A (px_apply pxf img colour x y) hB' hA' ht' he' hlo' hhi'
      simp only [if_neg hX, if_pos hY]
      have hne : (cgifh_line_loop f pxf colour x1 y1 sx sy dx dy
          (px_apply pxf img colour x y) x (y + sy) (e + dx)).2 ≠ [] := by
        intro h0
        rw [h0] at hlen
        simp at hlen
      refine ⟨?_, ?_⟩
      · rw [List.length_cons, hlen]
      · rw [getLast?_cons_of_ne_nil _ _ hne, hlast]

lemma cgifh_line_run (img : Img) (colour : Nat) (x0 y0 x1 y1 : Int)
    (hpx : cgifh_get_px_fn img x0 y0 x1 y1 ≠ none) :
    (cgifh_line img colour x0 y0 x1 y1).2.length =
      (max |x1 - x0| |y1 - y0|).toNat + 1 ∧
    (cgifh_line img colour x0 y0 x1 y1).2.head? = some (x0, y0) ∧
    (cgifh_line img colour x0 y0 x1 y1).2.getLast? = some (x1, y1) ∧
    (cgifh_line img colour x0 y0 x1 y1).2.Nodup ∧
    List.Chain' adj8 (cgifh_line img colour x0 y0 x1 y1).2 := by
  obtain ⟨pxf, hpxf⟩ : ∃ p, cgifh_get_px_fn img x0 y0 x1 y1 = some p := by
    cases h : cgifh_get_px_fn img x0 y0 x1 y1
    · exact absurd h hpx
    · exact ⟨_, rfl⟩
  simp only [cgifh_line, hpxf]
  have hsx : (if x0 < x1 then (1 : Int) else -1) = 1 ∨
      (if x0 < x1 then (1 : Int) else -1) = -1 := by split <;> simp
  have hsy : (if y0 < y1 then (1 : Int) else -1) = 1 ∨
      (if y0 < y1 then (1 : Int) else -1) = -1 := by split <;> simp
  have hA0 : (if x0 < x1 then (1 : Int) else -1) * (x1 - x0) = |x1 - x0| := by
    split
    · next h => rw [abs_of_nonneg (by omega)]; ring
    · next h => rw [abs_of_nonpos (by omega)]; ring
  have hB0 : (if y0 < y1 then (1 : Int) else -1) * (y1 - y0) = |y1 - y0| := by
    split
    · next h => rw [abs_of_nonneg (by omega)]; ring
    · next h => rw [abs_of_nonpos (by omega)]; ring
  have hdx : (0 : Int) ≤ |x1 - x0| := abs_nonneg _
  have hdy : -|y1 - y0| ≤ 0 := by
    have := abs_nonneg (y1 - y0)
    omega
  by_cases hcase : |x1 - x0| = 0 ∧ |y1 - y0| = 0
  · obtain ⟨h1, h2⟩ := hcase
    have hx : x1 = x0 := by have := abs_eq_zero.mp h1; omega
    have hy : y1 = y0 := by have := abs_eq_zero.mp h2; omega
    subst hx hy
    rw [line_loop_trace_succ, if_pos ⟨rfl, rfl⟩]
    simp
  · by_cases hxy : |y1 - y0| ≤ |x1 - x0|
    · have hD : 0 < |x1 - x0| := by omega
      have hrun := line_loop_run_x pxf colour x1 y1
        (if x0 < x1 then (1 : Int) else -1) (if y0 < y1 then (1 : Int) else -1)
        |x1 - x0| (-|y1 - y0|) hsx hsy hD hdy (by omega)
        (|x1 - x0|).toNat ((|x1 - x0| - -|y1 - y0|).toNat + 1) (by omega)
        x0 y0 (|x1 - x0| + -|y1 - y0|) 0 |y1 - y0| img
        (by rw [hA0, Int.toNat_of_nonneg hdx])
        (by rw [hB0])
        (by rw [Int.toNat_of_nonneg hdx]; ring)
        (by ring)
        (by omega) (by omega)
      obtain ⟨hlen, hlast⟩ := hrun
      refine ⟨?_, ?_, hlast, ?_, ?_⟩
      · rw [hlen]
        congr 1
        omega
      · exact line_loop_head _ _ _ _ _ _ _ _ _ _ _ _ _ (by omega)
      · exact line_loop_nodup _ _ _ _ _ _ _ _ hsx hsy hdx hdy _ _ _ _ _
      · exact line_loop_chain _ _ _ _ _ _ _ _ hsx hsy hdx hdy _ _ _ _ _
    · have hE : 0 < -(-|y1 - y0|) := by omega
      have hrun := line_loop_run_y pxf colour x1 y1
        (if x0 < x1 then (1 : Int) else -1) (if y0 < y1 then (1 : Int) else -1)
        |x1 - x0| (-|y1 - y0|) hsx hsy hE hdx (by omega)
        (|y1 - y0|).toNat ((|x1 - x0| - -|y1 - y0|).toNat + 1) (by omega)
        x0 y0 (|x1 - x0| + -|y1 - y0|) 0 |x1 - x0| img
        (by rw [hB0, Int.toNat_of_nonneg (abs_nonneg _)])
        (by rw [hA0])
        (by rw [Int.toNat_of_nonneg (abs_nonneg _)]; ring)
        (by ring)
        (by omega) (by omega)
      obtain ⟨hlen, hlast⟩ := hrun
      refine ⟨?_, ?_, hlast, ?_, ?_⟩
      · rw [hlen]
        congr 1
        omega
      · exact line_loop_head _ _ _ _ _ _ _ _ _ _ _ _ _ (by omega)
      · exact line_loop_nodup _ _ _ _ _ _ _ _ hsx hsy hdx hdy _ _ _ _ _
      · exact line_loop_chain _ _ _ _ _ _ _ _ hsx hsy hdx hdy _ _ _ _ _

/-- C6: whenever the line's bounding box is not fully outside (so the loop
runs), `cgifh_line` paints a trace that starts at `(x0, y0)`, ends at
`(x1, y1)` (both endpoints inclusive), has exactly `max |x1-x0| |y1-y0| + 1`
pixels, visits no pixel twice, and moves by Chebyshev distance exactly one
between consecutive pixels — i.e. it is a simple 8-connected digital line
between the endpoints.  In particular, on a 5×5 image the line from `(0,0)`
to `(4,0)` paints exactly the five pixels `(0,0)..(4,0)`, and on a 4×4 image
the line from `(0,0)` to `(3,3)` paints exactly the four diagonal pixels. -/
theorem line_draws_digital_line :
    (∀ (img : Img) (colour : Nat) (x0 y0 x1 y1 : Int),
      cgifh_get_px_fn img x0 y0 x1 y1 ≠ none →
      (cgifh_line img colour x0 y0 x1 y1).2.length =
        (max |x1 - x0| |y1 - y0|).toNat + 1 ∧
      (cgifh_line img colour x0 y0 x1 y1).2.head? = some (x0, y0) ∧
      (cgifh_line img colour x0 y0 x1 y1).2.getLast? = some (x1, y1) ∧
      (cgifh_line img colour x0 y0 x1 y1).2.Nodup ∧
      List.Chain' adj8 (cgifh_line img colour x0 y0 x1 y1).2) ∧
    (∀ (img : Img) (colour : Nat), img.width = 5 → img.height = 5 →
      (cgifh_line img colour 0 0 4 0).2 = [(0, 0), (1, 0), (2, 0), (3, 0), (4, 0)] ∧
      ∀ x y : Int, 0 ≤ x → x < 5 → 0 ≤ y → y < 5 →
        (cgifh_line img colour 0 0 4 0).1.data (y * 5 + x) =
          if y = 0 then colour else img.data (y * 5 + x)) ∧
    (∀ (img : Img) (colour : Nat), img.width = 4 → img.height = 4 →
      (cgifh_line img colour 0 0 3 3).2 = [(0, 0), (1, 1), (2, 2), (3, 3)] ∧
      ∀ x y : Int, 0 ≤ x → x < 4 → 0 ≤ y → y < 4 →
        (cgifh_line img colour 0 0 3 3).1.data (y * 4 + x) =
          if x = y then colour else img.data (y * 4 + x)) := by
  refine ⟨cgifh_line_run, ?_, ?_⟩
  · intro img colour hw hh
    obtain ⟨pal, pc, w, h, sz, d⟩ := img
    have hw' : w = 5 := hw
    have hh' : h = 5 := hh
    subst hw' hh'
    refine ⟨rfl, ?_⟩
    intro x y hx0 hx5 hy0 hy5
    have hdata : (cgifh_line ⟨pal, pc, 5, 5, sz, d⟩ colour 0 0 4 0).1.data =
        fun o => if o = 4 then colour else if o = 3 then colour else
          if o = 2 then colour else if o = 1 then colour else
          if o = 0 then colour else d o := rfl
    rw [hdata]
    show (if y * 5 + x = 4 then colour else _) = _
    split_ifs <;> first | rfl | omega
  · intro img colour hw hh
    obtain ⟨pal, pc, w, h, sz, d⟩ := img
    have hw' : w = 4 := hw
    have hh' : h = 4 := hh
    subst hw' hh'
    refine ⟨rfl, ?_⟩
    intro x y hx0 hx4 hy0 hy4
    have hdata : (cgifh_line ⟨pal, pc, 4, 4, sz, d⟩ colour 0 0 3 3).1.data =
        fun o => if o = 15 then colour else if o = 10 then colour else
          if o = 5 then colour else if o = 0 then colour else d o := rfl
    rw [hdata]
    show (if y * 4 + x = 15 then colour else _) = _
    split_ifs <;> first | rfl | omega

/-- C6 witness: the diagonal line on a 4×4 image ends at `(3, 3)`. -/
theorem line_draws_digital_line_witness :
    (cgifh_line (mkImg 4 4) 2 0 0 3 3).2.getLast? = some (3, 3) :=
  (line_draws_digital_line.1 (mkImg 4 4) 2 0 0 3 3 (by decide)).2.2.1

lemma line_loop_mirror (x1 y1 sx sy dx dy Sx Sy : Int) :
    ∀ (f : Nat) (pxfA pxfB : PxFn) (cA cB : Nat) (imgA imgB : Img)
      (x y e x1B y1B xB yB sxB syB : Int),
      x1B = Sx - x1 → y1B = Sy - y1 → xB = Sx - x → yB = Sy - y →
      sxB = -sx → syB = -sy →
      (cgifh_line_loop f pxfB cB x1B y1B sxB syB dx dy imgB xB yB e).2 =
        (cgifh_line_loop f pxfA cA x1 y1 sx sy dx dy imgA x y e).2.map
          (fun p => (Sx - p.1, Sy - p.2)) := by
  intro f
  induction f with
  | zero => intros; simp [cgifh_line_loop]
  | succ f ih =>
    intro pxfA pxfB cA cB imgA imgB x y e x1B y1B xB yB sxB syB h1 h2 h3 h4 h5 h6
    subst h1 h2 h3 h4 h5 h6
    by_cases hb : x = x1 ∧ y = y1
    · rw [line_loop_trace_succ, line_loop_trace_succ, if_pos hb,
        if_pos (show Sx - x = Sx - x1 ∧ Sy - y = Sy - y1 from
          ⟨by rw [hb.1], by rw [hb.2]⟩)]
      simp
    · have hbB : ¬ (Sx - x = Sx - x1 ∧ Sy - y = Sy - y1) := by
        intro hc
        exact hb ⟨by omega, by omega⟩
      rw [line_loop_trace_succ, line_loop_trace_succ, if_neg hb, if_neg hbB]
      simp only [List.map_cons]
      refine congrArg (List.cons _) ?_
      exact ih pxfA pxfB cA cB _ _
        (if 2 * e ≥ dy then x + sx else x)
        (if 2 * e ≤ dx then y + sy else y)
        (if 2 * e ≤ dx then (if 2 * e ≥ dy then e + dy else e) + dx
         else (if 2 * e ≥ dy then e + dy else e))
        _ _ _ _ _ _ rfl rfl (by split <;> ring) (by split <;> ring) rfl rfl

lemma line_loop_mirror_vert (x1 y1 sy dy Sx Sy : Int)
    (hdy : dy < 0) (hSx : Sx = x1 + x1) :
    ∀ (f : Nat) (pxfA pxfB : PxFn) (cA cB : Nat) (imgA imgB : Img)
      (y e y1B yB : Int) (sxA sxB syB : Int),
      e = dy → y1B = Sy - y1 → yB = Sy - y → syB = -sy →
      (cgifh_line_loop f pxfB cB x1 y1B sxB syB 0 dy imgB x1 yB e).2 =
        (cgifh_line_loop f pxfA cA x1 y1 sxA sy 0 dy imgA x1 y e).2.map
          (fun p => (Sx - p.1, Sy - p.2)) := by
  intro f
  induction f with
  | zero => intros; simp [cgifh_line_loop]
  | succ f ih =>
    intro pxfA pxfB cA cB imgA imgB y e y1B yB sxA sxB syB he h2 h3 h4
    subst h2 h3 h4
    by_cases hb : y = y1
    · rw [line_loop_trace_succ, line_loop_trace_succ,
        if_pos (show x1 = x1 ∧ y = y1 from ⟨rfl, hb⟩),
        if_pos (show x1 = x1 ∧ Sy - y = Sy - y1 from ⟨rfl, by rw [hb]⟩)]
      simp
      omega
    · have hbB : ¬ (x1 = x1 ∧ Sy - y = Sy - y1) := by
        intro hc
        exact hb (by omega)
      rw [line_loop_trace_succ, line_loop_trace_succ,
        if_neg (show ¬ (x1 = x1 ∧ y = y1) from fun hc => hb hc.2),
        if_neg hbB]
      have hX : ¬ (2 * e ≥ dy) := by omega
      have hY : 2 * e ≤ (0 : Int) := by omega
      simp only [if_neg hX, if_pos hY]
      have hhead : ((x1 : Int), Sy - y) = (Sx - x1, Sy - y) := by
        rw [Prod.mk.injEq]
        exact ⟨by omega, rfl⟩
      rw [List.map_cons, hhead]
      refine congrArg (List.cons _) ?_
      exact ih pxfA pxfB cA cB _ _ (y + sy) (e + 0) _ _ sxA _ _
        (by omega) rfl (by ring) rfl

lemma line_loop_mirror_horiz (x1 y1 sx dx Sx Sy : Int)
    (hdx : 0 < dx) (hSy : Sy = y1 + y1) :
    ∀ (f : Nat) (pxfA pxfB : PxFn) (cA cB : Nat) (imgA imgB : Img)
      (x e x1B xB : Int) (syA syB sxB : Int),
      e = dx → x1B = Sx - x1 → xB = Sx - x → sxB = -sx →
      (cgifh_line_loop f pxfB cB x1B y1 sxB syB dx 0 imgB xB y1 e).2 =
        (cgifh_line_loop f pxfA cA x1 y1 sx syA dx 0 imgA x y1 e).2.map
          (fun p => (Sx - p.1, Sy - p.2)) := by
  intro f
  induction f with
  | zero => intros; simp [cgifh_line_loop]
  | succ f ih =>
    intro pxfA pxfB cA cB imgA imgB x e x1B xB syA syB sxB he h2 h3 h4
    subst h2 h3 h4
    by_cases hb : x = x1
    · rw [line_loop_trace_succ, line_loop_trace_succ,
        if_pos (show x = x1 ∧ y1 = y1 from ⟨hb, rfl⟩),
        if_pos (show Sx - x = Sx - x1 ∧ y1 = y1 from ⟨by rw [hb], rfl⟩)]
      simp
      omega
    · have hbB : ¬ (Sx - x = Sx - x1 ∧ y1 = y1) := by
        intro hc
        exact hb (by omega)
      rw [line_loop_trace_succ, line_loop_trace_succ,
        if_neg (show ¬ (x = x1 ∧ y1 = y1) from fun hc => hb hc.1),
        if_neg hbB]
      have hX : 2 * e ≥ (0 : Int) := by omega
      have hY : ¬ (2 * e ≤ dx) := by omega
      simp only [if_pos hX, if_neg hY]
      have hhead : (Sx - x, (y1 : Int)) = (Sx - x, Sy - y1) := by
        rw [Prod.mk.injEq]
        exact ⟨rfl, by omega⟩
      rw [List.map_cons, hhead]
      refine congrArg (List.cons _) ?_
      exact ih pxfA pxfB cA cB _ _ (x + sx) (e + 0) _ _ syA _ _
        (by omega) rfl (by ring) rfl

/-- C7 (amended): swapping the endpoints of `cgifh_line` paints, pixel for
pixel along the traversal, the point reflection of the forward trace through
the segment midpoint: the reversed call's trace is the forward trace mapped
by `p ↦ (x0+x1-p.1, y0+y1-p.2)`.  The two painted sets are therefore mirror
images of each other, but not in general equal. -/
theorem line_reverse_mirror :
    ∀ (img : Img) (colour : Nat) (x0 y0 x1 y1 : Int),
      (cgifh_line img colour x1 y1 x0 y0).2 =
        (cgifh_line img colour x0 y0 x1 y1).2.map
          (fun p => (x0 + x1 - p.1, y0 + y1 - p.2)) := by
  intro img colour x0 y0 x1 y1
  have hswap : cgifh_get_px_fn img x1 y1 x0 y0 = cgifh_get_px_fn img x0 y0 x1 y1 := by
    rw [gpf_eq, gpf_eq, min_comm x1 x0, max_comm x1 x0, min_comm y1 y0, max_comm y1 y0]
  simp only [cgifh_line, hswap]
  cases hg : cgifh_get_px_fn img x0 y0 x1 y1 with
  | none => simp
  | some pxf =>
    dsimp only
    rw [abs_sub_comm x0 x1, abs_sub_comm y0 y1]
    by_cases hx : x0 = x1
    · by_cases hy : y0 = y1
      · subst hx hy
        rw [line_loop_trace_succ, if_pos ⟨rfl, rfl⟩]
        simp only [List.map_cons, List.map_nil, List.cons.injEq, Prod.mk.injEq]
        refine ⟨⟨by ring, by ring⟩, trivial⟩
      · subst hx
        rw [show |x0 - x0| = (0 : Int) by simp]
        have hdy : -|y1 - y0| < 0 := by
          have h1 : y1 - y0 ≠ 0 := by omega
          have := abs_pos.mpr h1
          omega
        exact line_loop_mirror_vert x0 y1 (if y0 < y1 then (1 : Int) else -1)
          (-|y1 - y0|) (x0 + x0) (y0 + y1) hdy rfl _ pxf pxf colour colour img img
          y0 (0 + -|y1 - y0|) _ _ _ _ _
          (by ring) (by ring) (by ring)
          (by by_cases h : y0 < y1 <;> simp [h, show ¬ (y1 < y0) ↔ y0 ≤ y1 from not_lt] <;> omega)
    · by_cases hy : y0 = y1
      · subst hy
        rw [show |y0 - y0| = (0 : Int) by simp, neg_zero]
        have hdx : (0 : Int) < |x1 - x0| := abs_pos.mpr (by omega)
        exact line_loop_mirror_horiz x1 y0 (if x0 < x1 then (1 : Int) else -1)
          |x1 - x0| (x0 + x1) (y0 + y0) hdx rfl _ pxf pxf colour colour img img
          x0 (|x1 - x0| + 0) _ _ _ _ _
          (by ring) (by ring) (by ring)
          (by split_ifs <;> omega)
      · exact line_loop_mirror x1 y1 (if x0 < x1 then (1 : Int) else -1)
          (if y0 < y1 then (1 : Int) else -1) |x1 - x0| (-|y1 - y0|)
          (x0 + x1) (y0 + y1) _ pxf pxf colour colour img img
          x0 y0 (|x1 - x0| + -|y1 - y0|) _ _ _ _ _ _
          (by ring) (by ring) (by ring) (by ring)
          (by split_ifs <;> omega) (by split_ifs <;> omega)

/-- C7 counterexample: the claim that the painted pixel set is independent of
direction fails at the endpoints `(0,0)` and `(2,1)` on a 5×5 image: the
forward call paints `(1,1)` (offset 6) but the reversed call does not. -/
theorem line_not_direction_symmetric :
    ((1, 1) ∈ (cgifh_line (mkImg 5 5) 5 0 0 2 1).2 ∧
     (1, 1) ∉ (cgifh_line (mkImg 5 5) 5 2 1 0 0).2) ∧
    (cgifh_line (mkImg 5 5) 5 0 0 2 1).1.data 6 = 5 ∧
    (cgifh_line (mkImg 5 5) 5 2 1 0 0).1.data 6 = 0 := by decide

lemma font_h8_length : font_h8.length = 128 := by decide

lemma font_h8_inv : ∀ c, c < 128 →
    (font_h8.getD c ⟨0, []⟩).advance ≤ 8 ∧
    ∀ row, row < 8 → ∀ col, col < 8 →
      glyph_bit ((font_h8.getD c ⟨0, []⟩).data.getD row 0) col = true →
      col < (font_h8.getD c ⟨0, []⟩).advance := by decide

lemma char_pixels_in_box (g : Glyph) (sx sy x y : Int)
    (hsx : 1 ≤ sx) (hsy : 1 ≤ sy) (hadv : g.advance ≤ 8)
    (hbits : ∀ row, row < 8 → ∀ col, col < 8 →
      glyph_bit (g.data.getD row 0) col = true → col < g.advance) :
    ∀ p ∈ char_pixels g sx sy x y,
      x ≤ p.1 ∧ p.1 < x + (g.advance : Int) * sx ∧
      y ≤ p.2 ∧ p.2 < y + 8 * sy := by
  intro p hp
  unfold char_pixels at hp
  obtain ⟨row, hrm, hp⟩ := List.mem_flatMap.mp hp
  rw [List.mem_range] at hrm
  by_cases hv : g.data.getD row 0 = 0
  · rw [if_pos hv] at hp
    exact absurd hp (List.not_mem_nil p)
  · rw [if_neg hv] at hp
    obtain ⟨col, hcm, hp⟩ := List.mem_flatMap.mp hp
    rw [List.mem_range] at hcm
    by_cases hbit : glyph_bit (g.data.getD row 0) col = true
    · rw [if_pos hbit] at hp
      obtain ⟨i, him, hp⟩ := List.mem_flatMap.mp hp
      rw [List.mem_range] at him
      obtain ⟨j, hjm, hpeq⟩ := List.mem_map.mp hp
      rw [List.mem_range] at hjm
      subst hpeq
      have hca : col < g.advance := hbits row hrm col hcm hbit
      have h1 : ((col : Int) + 1) * sx ≤ (g.advance : Int) * sx :=
        mul_le_mul_of_nonneg_right (by exact_mod_cast hca) (by omega)
      have h2 : ((col : Int) + 1) * sx = (col : Int) * sx + sx := by ring
      have h3 : 0 ≤ (col : Int) * sx := mul_nonneg (Int.natCast_nonneg col) (by omega)
      have h4 : ((row : Int) + 1) * sy ≤ (8 : Int) * sy :=
        mul_le_mul_of_nonneg_right (by exact_mod_cast hrm) (by omega)
      have h5 : ((row : Int) + 1) * sy = (row : Int) * sy + sy := by ring
      have h6 : 0 ≤ (row : Int) * sy := mul_nonneg (Int.natCast_nonneg row) (by omega)
      refine ⟨by dsimp only; omega, by dsimp only; omega, by dsimp only; omega,
        by dsimp only; omega⟩
    · rw [if_neg hbit] at hp
      exact absurd hp (List.not_mem_nil p)

/-- C10: every `font_h8` entry has advance at most 8 and all its set bits in
columns strictly below its advance; consequently, for scale factors at least
one, every pixel painted by `cgifh_char_scaled` lies inside the
`advance * scale_x` by `8 * scale_y` box that it passes to
`cgifh_get_px_fn`, so whenever that box classifies as fully inside (the
unchecked fast setter is chosen) every painted pixel is inside the image
bounds. -/
theorem font_glyphs_fit_box :
    (font_h8.length = 128 ∧
     ∀ c, c < 128 →
       (font_h8.getD c ⟨0, []⟩).advance ≤ 8 ∧
       ∀ row, row < 8 → ∀ col, col < 8 →
         glyph_bit ((font_h8.getD c ⟨0, []⟩).data.getD row 0) col = true →
         col < (font_h8.getD c ⟨0, []⟩).advance) ∧
    (∀ (c : Nat) (sx sy x y : Int), c < 128 → 1 ≤ sx → 1 ≤ sy →
      ∀ p ∈ char_pixels (font_h8.getD c ⟨0, []⟩) sx sy x y,
        x ≤ p.1 ∧ p.1 < x + ((font_h8.getD c ⟨0, []⟩).advance : Int) * sx ∧
        y ≤ p.2 ∧ p.2 < y + 8 * sy) ∧
    (∀ (img : Img) (c : Nat) (sx sy x y : Int), c < 128 → 1 ≤ sx → 1 ≤ sy →
      cgifh_get_px_fn img x y
          (x + ((font_h8.getD c ⟨0, []⟩).advance : Int) * sx) (y + 8 * sy) =
        some PxFn.fast →
      ∀ p ∈ char_pixels (font_h8.getD c ⟨0, []⟩) sx sy x y, inRect img p) := by
  refine ⟨⟨font_h8_length, font_h8_inv⟩, ?_, ?_⟩
  · intro c sx sy x y hc hsx hsy
    exact char_pixels_in_box _ sx sy x y hsx hsy (font_h8_inv c hc).1 (font_h8_inv c hc).2
  · intro img c sx sy x y hc hsx hsy hfast p hp
    obtain ⟨hp1, hp2, hp3, hp4⟩ :=
      char_pixels_in_box _ sx sy x y hsx hsy (font_h8_inv c hc).1 (font_h8_inv c hc).2 p hp
    rw [gpf_eq] at hfast
    split_ifs at hfast with h1 h2
    · simp only [inRect]
      omega
    · simp at hfast

/-- C10 witness: with scale 1 at the origin of a 10×10 image, the glyph box
for character code 97 is fully inside and the painted pixel `(0, 1)` is in
bounds. -/
theorem font_glyphs_fit_box_witness : inRect (mkImg 10 10) (0, 1) :=
  font_glyphs_fit_box.2.2 (mkImg 10 10) 97 1 1 0 0 (by decide) (by decide)
    (by decide) (by decide) (0, 1) (by decide)

/-- C4: the code evaluates `glyph->advance` in the `cgifh_get_px_fn` call
*before* the `glyph == NULL` check, so a byte outside the glyph table's
range (here 200) makes `cgifh_get_glyph` return `NULL` and
`cgifh_char_scaled` dereference that null pointer — in the embedding, the
call evaluates to the undefined-behaviour marker `none` instead of safely
drawing nothing and returning 0. -/
theorem char_scaled_null_glyph_deref :
    cgifh_get_glyph 200 = none ∧
    cgifh_char_scaled (mkImg 4 4) 1 200 1 1 0 0 = none := by
  constructor
  · rfl
  · rfl

lemma char_scaled_advance (img : Img) (colour c : Nat) (sx sy x y : Int)
    (hc : c < 128) :
    (cgifh_char_scaled img colour c sx sy x y).map (fun r => r.2.1) =
      some (((font_h8.getD c ⟨0, []⟩).advance : Int) * sx) := by
  have hg : cgifh_get_glyph c = some (font_h8.getD c ⟨0, []⟩) := by
    unfold cgifh_get_glyph
    rw [if_neg (by rw [font_h8_length]; omega)]
  unfold cgifh_char_scaled
  rw [hg]
  dsimp only
  by_cases h0 : (font_h8.getD c ⟨0, []⟩).advance = 0
  · rw [if_pos h0, h0]
    simp
  · rw [if_neg h0]
    cases hpx : cgifh_get_px_fn img x y
        (x + ((font_h8.getD c ⟨0, []⟩).advance : Int) * sx) (y + 8 * sy) with
    | none => rfl
    | some pxf => rfl

lemma text_width_go_acc : ∀ (l : List Nat) (a : Int),
    cgifh_text_width_go l a = a + cgifh_text_width_go l 0 := by
  intro l
  induction l with
  | nil => intro a; simp [cgifh_text_width_go]
  | cons c rest ih =>
    intro a
    simp only [cgifh_text_width_go]
    rw [ih, ih (0 + _)]
    ring

lemma text_go_advance : ∀ (text : List Nat) (img : Img) (colour : Nat)
    (scale x y advance : Int), (∀ c ∈ text, c < 128) →
    (cgifh_text_go img colour text scale x y advance).map Prod.snd =
      some (advance + cgifh_text_width_go text 0 * scale) := by
  intro text
  induction text with
  | nil =>
    intro img colour scale x y advance h
    simp [cgifh_text_go, cgifh_text_width_go]
  | cons c rest ih =>
    intro img colour scale x y advance h
    have hc : c < 128 := h c (by simp)
    have hg : cgifh_get_glyph c = some (font_h8.getD c ⟨0, []⟩) := by
      unfold cgifh_get_glyph
      rw [if_neg (by rw [font_h8_length]; omega)]
    have hadv := char_scaled_advance img colour c scale scale (x + advance) y hc
    simp only [cgifh_text_go, cgifh_char]
    cases hch : cgifh_char_scaled img colour c scale scale (x + advance) y with
    | none =>
      rw [hch] at hadv
      simp at hadv
    | some trip =>
      rw [hch] at hadv
      obtain ⟨img2, adv, tr⟩ := trip
      have hadv2 : adv = ((font_h8.getD c ⟨0, []⟩).advance : Int) * scale :=
        Option.some.inj hadv
      dsimp only
      rw [ih img2 colour scale x y (advance + adv) (fun d hd => h d (by simp [hd]))]
      congr 1
      rw [hadv2]
      simp only [cgifh_text_width_go, hg]
      rw [text_width_go_acc rest (0 + ((font_h8.getD c ⟨0, []⟩).advance : Int))]
      ring

/-- C8: for a string of 7-bit ASCII bytes, at any position, scale and
clipping situation, `cgifh_text` succeeds (no glyph lookup can fail) and
returns exactly `cgifh_text_width text scale`, the full un-clipped sum of
the glyph advances times the scale. -/
theorem text_advance_spec :
    ∀ (img : Img) (colour : Nat) (text : List Nat) (scale x y : Int),
      (∀ c ∈ text, c < 128) →
      (cgifh_text img colour text scale x y).map Prod.snd =
        some (cgifh_text_width text scale) := by
  intro img colour text scale x y h
  unfold cgifh_text cgifh_text_width
  rw [text_go_advance text img colour scale x y 0 h, zero_add]

/-- C8 witness: drawing `"ab"` at scale 1 on a 20×10 image returns exactly
`cgifh_text_width "ab" 1`. -/
theorem text_advance_spec_witness :
    (cgifh_text (mkImg 20 10) 1 [97, 98] 1 0 0).map Prod.snd =
      some (cgifh_text_width [97, 98] 1) :=
  text_advance_spec (mkImg 20 10) 1 [97, 98] 1 0 0 (by decide)
